import Mathlib

/-!
Refcounted mount drivers `shm` and `mqueue`

A shallow embedding of `daemon/graphdriver/shm/driver.go` and
`daemon/graphdriver/mqueue/driver.go`.

* Go strings are Lean strings, a Go `error` is `Option Error` (`none` is `nil`)
  and an error is identified with its message.
* The map `active map[string]*ActiveMount` is a function from keys to optional
  records.  Every record is allocated inside `Get` and stored under one key
  only, so the pointer indirection carries no aliasing.
* Go's `int` is the 64-bit signed integer of the platforms the daemon is built
  for: a value is an `Int` between `Go.minInt` and `Go.maxInt`, and `++` and
  `--` wrap around at the two ends (`Go.incr`, `Go.decr`).
* The mutex is held for the whole body of `Get` and `Put`; each call is one
  atomic transition of the state `Driver × World`.
* The operating system is the record `World` (the directories that can be
  found, the mount table, what each mount covers, the log of the calls issued).
  `Stat` is answered from the directories that can be found; a mount covers
  what lies inside its target and an unmount uncovers it.  Whether `MkdirAll`
  of a missing directory, `RemoveAll`, `Mount` and `Unmount` succeed is chosen
  by the environment, call by call, through an `Outcome`; the answers are not
  tied to those a kernel gives, and a theorem that needs such a tie states it.
* `log.Debugf` output is not part of the state.
-/

namespace Graphdriver

/-- The message of a Go `error` value. -/
abbrev Error := String

/-! ## Package `path` of the Go standard library -/

/-- The pieces of a path between its slashes (`"a//b"` gives `a`, the empty
piece and `b`). -/
def path.pieces : List Char → List (List Char)
  | [] => [[]]
  | c :: cs =>
    match path.pieces cs with
    | [] => [[]]
    | seg :: rest => if c = '/' then [] :: seg :: rest else (c :: seg) :: rest

/-- One round of the loop of `path.Clean`, on the stack of elements written so
far (last written first): empty and `.` elements are dropped, `..` removes the
last real element, is dropped at the root and is kept at the head of a relative
path, any other element is written. -/
def path.cleanStep (rooted : Bool) (out : List (List Char)) (seg : List Char) :
    List (List Char) :=
  if seg = [] ∨ seg = ['.'] then out
  else if seg = ['.', '.'] then
    match out with
    | [] => if rooted then [] else [seg]
    | top :: rest =>
      if top = ['.', '.'] then (if rooted then out else seg :: out) else rest
  else seg :: out

/-- The function `path.Clean`: the shortest path equivalent to `p` by purely
lexical processing. -/
def path.Clean (p : String) : String :=
  if p = "" then "."
  else
    let rooted : Bool := p.data.head? = some '/'
    let out := (path.pieces p.data).foldl (path.cleanStep rooted) []
    let body := List.intercalate ['/'] out.reverse
    if rooted then String.mk ('/' :: body)
    else if out = [] then "."
    else String.mk body

/-- The function `path.Base`: the last element of `p`, after removing trailing
slashes; `.` for the empty path and `/` for a path of slashes only. -/
def path.Base (p : String) : String :=
  if p = "" then "."
  else
    let stripped := p.data.reverse.dropWhile (fun c => c = '/')
    let last := (stripped.takeWhile (fun c => c ≠ '/')).reverse
    if last = [] then "/" else String.mk last

/-- The function `path.Join`: the elements from the first non-empty one on,
joined by slashes and cleaned; the empty string when all are empty. -/
def path.Join (elem : List String) : String :=
  match elem.dropWhile (fun e => e = "") with
  | [] => ""
  | es => path.Clean (String.intercalate "/" es)

/-! ## The operating system -/

/-- The calls the drivers issue to the operating system. -/
inductive Syscall where
  | stat (name : String)
  | mkdirAll (name : String) (perm : Nat)
  | removeAll (name : String)
  | mount (source target fstype : String) (flags : Nat) (data : String)
  | unmount (target : String) (flags : Nat)
  deriving DecidableEq, Repr

/-- The part of the operating system the drivers act on. -/
structure World where
  /-- the directories that `Stat` finds -/
  dirs : String → Bool
  /-- the mount table: one entry per mount, the latest first -/
  mounts : List String
  /-- the calls issued so far, the oldest first -/
  calls : List Syscall
  /-- for each mount point, what each of its mounts covers, the latest first:
  the directories that were to be found inside it when the mount was made -/
  covered : String → List (String → Bool)

/-- What the environment answers to the calls of one driver operation: for
each of the four calls that can fail on their own, `none` for success or the
error. -/
structure Outcome where
  mkdirAll : Option Error
  removeAll : Option Error
  mount : Option Error
  unmount : Option Error
  deriving DecidableEq, Repr

/-- The outcome in which every call succeeds. -/
def Outcome.ok : Outcome := ⟨none, none, none, none⟩

/-- Path `q` is `p` or lies below it. -/
def path.below (p q : String) : Bool :=
  q = p || (p ++ "/").data.isPrefixOf q.data

/-- Path `q` lies inside the directory `p`: strictly below it. -/
def path.inside (p q : String) : Bool :=
  q ≠ p && (if p = "/" then "/" else p ++ "/").data.isPrefixOf q.data

/-- The call `os.Stat name`, of which the drivers only use the error. -/
def os.Stat (w : World) (name : String) : Option Error × World :=
  (if w.dirs name then none else some ("stat " ++ name ++ ": no such file or directory"),
   { w with calls := w.calls ++ [Syscall.stat name] })

/-- The call `os.MkdirAll name perm`: if `name` is already a directory nothing
is done and no error is returned; else, on success, `name` and the directories
above it are present. -/
def os.MkdirAll (w : World) (o : Outcome) (name : String) (perm : Nat) :
    Option Error × World :=
  let w1 := { w with calls := w.calls ++ [Syscall.mkdirAll name perm] }
  if w.dirs name then (none, w1)
  else
    match o.mkdirAll with
    | some e => (some e, w1)
    | none => (none, { w1 with dirs := fun q => w.dirs q || path.below q name })

/-- The call `os.RemoveAll name`: on success `name` and everything below it are
gone.  Whether it succeeds is the answer of the environment; a kernel refuses
(`EBUSY`) while a mount point lies at or below `name`, which is stated for a
run by `mqueue.busyRefused` where a theorem depends on it. -/
def os.RemoveAll (w : World) (o : Outcome) (name : String) : Option Error × World :=
  let w1 := { w with calls := w.calls ++ [Syscall.removeAll name] }
  match o.removeAll with
  | some e => (some e, w1)
  | none => (none, { w1 with dirs := fun q => w.dirs q && !path.below name q })

/-- The mount flag `syscall.MS_NOSUID` (Linux). -/
def syscall.MS_NOSUID : Nat := 0x2

/-- The mount flag `syscall.MS_NODEV` (Linux). -/
def syscall.MS_NODEV : Nat := 0x4

/-- The mount flag `syscall.MS_NOEXEC` (Linux). -/
def syscall.MS_NOEXEC : Nat := 0x8

/-- The call `syscall.Mount` of a fresh filesystem: on success the target is a
mount point, the target itself is still found, and the directories inside it
are covered by the empty new filesystem. -/
def syscall.Mount (w : World) (o : Outcome) (source target fstype : String) (flags : Nat)
    (data : String) : Option Error × World :=
  let w1 := { w with calls := w.calls ++ [Syscall.mount source target fstype flags data] }
  match o.mount with
  | some e => (some e, w1)
  | none =>
    (none, { w1 with
      mounts := target :: w.mounts
      dirs := fun q => w.dirs q && !path.inside target q
      covered := fun t =>
        if t = target then (fun q => w.dirs q && path.inside target q) :: w.covered t
        else w.covered t })

/-- The call `syscall.Unmount`: on success the latest mount on the target is
removed, what was made inside it is gone with it, and the directories it
covered are found again. -/
def syscall.Unmount (w : World) (o : Outcome) (target : String) (flags : Nat) :
    Option Error × World :=
  let w1 := { w with calls := w.calls ++ [Syscall.unmount target flags] }
  match o.unmount with
  | some e => (some e, w1)
  | none =>
    (none, { w1 with
      mounts := w.mounts.erase target
      dirs := fun q =>
        if path.inside target q then (w.covered target).headD (fun _ => false) q else w.dirs q
      covered := fun t => if t = target then (w.covered target).tail else w.covered t })

/-! ## Go's `int` -/

/-- The largest value of a 64-bit `int`, `2^63 - 1`. -/
def Go.maxInt : Int := 9223372036854775807

/-- The smallest value of a 64-bit `int`, `-2^63`. -/
def Go.minInt : Int := -9223372036854775808

/-- The statement `c++` on an `int`: one more, and the smallest value after the
largest. -/
def Go.incr (c : Int) : Int := if c = Go.maxInt then Go.minInt else c + 1

/-- The statement `c--` on an `int`: one less, and the largest value after the
smallest. -/
def Go.decr (c : Int) : Int := if c = Go.minInt then Go.maxInt else c - 1

/-! ## Data model -/

/-- The record `ActiveMount`. -/
structure ActiveMount where
  count : Int
  path : String
  mounted : Bool
  deriving DecidableEq, Repr

/-- The record `Driver` (the mutex is not state). -/
structure Driver where
  home : String
  active : String → Option ActiveMount

/-- The assignment `d.active[id] = mount`. -/
def Driver.store (d : Driver) (id : String) (mount : ActiveMount) : Driver :=
  { d with active := fun k => if k = id then some mount else d.active k }

/-- The statement `delete(d.active, id)`. -/
def Driver.delete (d : Driver) (id : String) : Driver :=
  { d with active := fun k => if k = id then none else d.active k }

/-- A call of the driver interface. -/
inductive Call where
  | Create (id parent : String)
  | Remove (id : String)
  | Get (id mountLabel : String)
  | Put (id : String)
  | Exists (id : String)
  | Status
  | Cleanup
  deriving DecidableEq, Repr

/-- What a call of the driver interface returns. -/
inductive Result where
  | error (err : Option Error)
  | path (dir : String) (err : Option Error)
  | bool (b : Bool)
  | status (rows : List (String × String))
  deriving DecidableEq, Repr

/-! ## Package `shm` -/

/-- The function `Init` of package `shm`; the options are not read. -/
def shm.Init (home : String) (_options : List String) : Driver :=
  { home := home, active := fun _ => none }

/-- The method `Status` of package `shm`. -/
def shm.Status (_d : Driver) : List (String × String) := []

/-- The method `Cleanup` of package `shm`. -/
def shm.Cleanup (_d : Driver) : Option Error := none

/-- The method `dir` of package `shm`. -/
def shm.dir (d : Driver) (id : String) : String :=
  path.Join [d.home, "dir", path.Base id]

/-- The method `Create` of package `shm`. -/
def shm.Create (d : Driver) (w : World) (o : Outcome) (id parent : String) :
    Option Error × Driver × World :=
  if parent ≠ "" then (some "shm driver doesn't support parent", d, w)
  else
    match os.MkdirAll w o (shm.dir d id) 0o700 with
    | (some err, w1) => (some err, d, w1)
    | (none, w1) => (none, d, w1)

/-- The method `Remove` of package `shm`. -/
def shm.Remove (d : Driver) (w : World) (o : Outcome) (id : String) :
    Option Error × Driver × World :=
  match os.Stat w (shm.dir d id) with
  | (some err, w1) => (some err, d, w1)
  | (none, w1) => ((os.RemoveAll w1 o (shm.dir d id)).1, d, (os.RemoveAll w1 o (shm.dir d id)).2)

/-- The method `Get` of package `shm`. -/
def shm.Get (d : Driver) (w : World) (o : Outcome) (id _mountLabel : String) :
    (String × Option Error) × Driver × World :=
  match d.active id with
  | some mount =>
    let mount := { mount with count := Go.incr mount.count }
    ((mount.path, none), d.store id mount, w)
  | none =>
    let mount : ActiveMount := { count := 1, path := "", mounted := false }
    let dir := shm.dir d id
    match os.Stat w dir with
    | (some err, w1) => (("", some err), d, w1)
    | (none, w1) =>
      match syscall.Mount w1 o "tmpfs" dir "tmpfs"
          (syscall.MS_NODEV ||| syscall.MS_NOSUID ||| syscall.MS_NOEXEC) "mode=1777,size=65536k" with
      | (some err, w2) =>
        (("", some ("error creating tmpfs mount to " ++ dir ++ ": " ++ err)), d, w2)
      | (none, w2) =>
        let mount := { mount with path := dir, mounted := true }
        ((mount.path, none), d.store id mount, w2)

/-- The method `Put` of package `shm`. -/
def shm.Put (d : Driver) (w : World) (o : Outcome) (id : String) :
    Option Error × Driver × World :=
  match d.active id with
  | none => (none, d, w)
  | some mount =>
    let mount := { mount with count := Go.decr mount.count }
    if mount.count > 0 then (none, d.store id mount, w)
    else if mount.mounted then
      ((syscall.Unmount w o mount.path 0).1, d.delete id, (syscall.Unmount w o mount.path 0).2)
    else (none, d.delete id, w)

/-- The method `Exists` of package `shm`. -/
def shm.Exists (d : Driver) (w : World) (id : String) : Bool × Driver × World :=
  ((os.Stat w (shm.dir d id)).1 == none, d, (os.Stat w (shm.dir d id)).2)

/-- One call of the `shm` driver, with the answers of the environment. -/
def shm.step (s : Driver × World) (o : Outcome) : Call → Result × (Driver × World)
  | Call.Create id parent =>
    (Result.error (shm.Create s.1 s.2 o id parent).1, (shm.Create s.1 s.2 o id parent).2)
  | Call.Remove id => (Result.error (shm.Remove s.1 s.2 o id).1, (shm.Remove s.1 s.2 o id).2)
  | Call.Get id mountLabel =>
    (Result.path (shm.Get s.1 s.2 o id mountLabel).1.1 (shm.Get s.1 s.2 o id mountLabel).1.2,
     (shm.Get s.1 s.2 o id mountLabel).2)
  | Call.Put id => (Result.error (shm.Put s.1 s.2 o id).1, (shm.Put s.1 s.2 o id).2)
  | Call.Exists id => (Result.bool (shm.Exists s.1 s.2 id).1, (shm.Exists s.1 s.2 id).2)
  | Call.Status => (Result.status (shm.Status s.1), s)
  | Call.Cleanup => (Result.error (shm.Cleanup s.1), s)

/-- A sequence of calls of the `shm` driver: the results in order and the final
state. -/
def shm.run (s : Driver × World) : List (Outcome × Call) → List Result × (Driver × World)
  | [] => ([], s)
  | oc :: rest =>
    ((shm.step s oc.1 oc.2).1 :: (shm.run (shm.step s oc.1 oc.2).2 rest).1,
     (shm.run (shm.step s oc.1 oc.2).2 rest).2)

/-- The method `String` of package `shm`. -/
def shm.Driver.String (_d : Driver) : String := "shm"

/-! ## Package `mqueue` -/

/-- The function `Init` of package `mqueue`; the options are not read. -/
def mqueue.Init (home : String) (_options : List String) : Driver :=
  { home := home, active := fun _ => none }

/-- The method `Status` of package `mqueue`. -/
def mqueue.Status (_d : Driver) : List (String × String) := []

/-- The method `Cleanup` of package `mqueue`. -/
def mqueue.Cleanup (_d : Driver) : Option Error := none

/-- The method `dir` of package `mqueue`. -/
def mqueue.dir (d : Driver) (id : String) : String :=
  path.Join [d.home, "dir", path.Base id]

/-- The method `Create` of package `mqueue`. -/
def mqueue.Create (d : Driver) (w : World) (o : Outcome) (id parent : String) :
    Option Error × Driver × World :=
  if parent ≠ "" then (some "mqueue driver doesn't support parent", d, w)
  else
    match os.MkdirAll w o (mqueue.dir d id) 0o700 with
    | (some err, w1) => (some err, d, w1)
    | (none, w1) => (none, d, w1)

/-- The method `Remove` of package `mqueue`. -/
def mqueue.Remove (d : Driver) (w : World) (o : Outcome) (id : String) :
    Option Error × Driver × World :=
  match os.Stat w (mqueue.dir d id) with
  | (some err, w1) => (some err, d, w1)
  | (none, w1) => ((os.RemoveAll w1 o (mqueue.dir d id)).1, d, (os.RemoveAll w1 o (mqueue.dir d id)).2)

/-- The method `Get` of package `mqueue`. -/
def mqueue.Get (d : Driver) (w : World) (o : Outcome) (id _mountLabel : String) :
    (String × Option Error) × Driver × World :=
  match d.active id with
  | some mount =>
    let mount := { mount with count := Go.incr mount.count }
    ((mount.path, none), d.store id mount, w)
  | none =>
    let mount : ActiveMount := { count := 1, path := "", mounted := false }
    let dir := mqueue.dir d id
    match os.Stat w dir with
    | (some err, w1) => (("", some err), d, w1)
    | (none, w1) =>
      match syscall.Mount w1 o "mqueue" dir "mqueue"
          (syscall.MS_NODEV ||| syscall.MS_NOSUID ||| syscall.MS_NOEXEC) "" with
      | (some err, w2) =>
        (("", some ("error creating mqueue mount to " ++ dir ++ ": " ++ err)), d, w2)
      | (none, w2) =>
        let mount := { mount with path := dir, mounted := true }
        ((mount.path, none), d.store id mount, w2)

/-- The method `Put` of package `mqueue`. -/
def mqueue.Put (d : Driver) (w : World) (o : Outcome) (id : String) :
    Option Error × Driver × World :=
  match d.active id with
  | none => (none, d, w)
  | some mount =>
    let mount := { mount with count := Go.decr mount.count }
    if mount.count > 0 then (none, d.store id mount, w)
    else if mount.mounted then
      ((syscall.Unmount w o mount.path 0).1, d.delete id, (syscall.Unmount w o mount.path 0).2)
    else (none, d.delete id, w)

/-- The method `Exists` of package `mqueue`. -/
def mqueue.Exists (d : Driver) (w : World) (id : String) : Bool × Driver × World :=
  ((os.Stat w (mqueue.dir d id)).1 == none, d, (os.Stat w (mqueue.dir d id)).2)

/-- One call of the `mqueue` driver, with the answers of the environment. -/
def mqueue.step (s : Driver × World) (o : Outcome) : Call → Result × (Driver × World)
  | Call.Create id parent =>
    (Result.error (mqueue.Create s.1 s.2 o id parent).1, (mqueue.Create s.1 s.2 o id parent).2)
  | Call.Remove id => (Result.error (mqueue.Remove s.1 s.2 o id).1, (mqueue.Remove s.1 s.2 o id).2)
  | Call.Get id mountLabel =>
    (Result.path (mqueue.Get s.1 s.2 o id mountLabel).1.1 (mqueue.Get s.1 s.2 o id mountLabel).1.2,
     (mqueue.Get s.1 s.2 o id mountLabel).2)
  | Call.Put id => (Result.error (mqueue.Put s.1 s.2 o id).1, (mqueue.Put s.1 s.2 o id).2)
  | Call.Exists id => (Result.bool (mqueue.Exists s.1 s.2 id).1, (mqueue.Exists s.1 s.2 id).2)
  | Call.Status => (Result.status (mqueue.Status s.1), s)
  | Call.Cleanup => (Result.error (mqueue.Cleanup s.1), s)

/-- A sequence of calls of the `mqueue` driver: the results in order and the final
state. -/
def mqueue.run (s : Driver × World) : List (Outcome × Call) → List Result × (Driver × World)
  | [] => ([], s)
  | oc :: rest =>
    ((mqueue.step s oc.1 oc.2).1 :: (mqueue.run (mqueue.step s oc.1 oc.2).2 rest).1,
     (mqueue.run (mqueue.step s oc.1 oc.2).2 rest).2)

/-- The method `String` of package `mqueue`. -/
def mqueue.Driver.String (_d : Driver) : String := "mqueue"

/-! ## Outstanding acquires -/

/-- What one call adds to the number of outstanding acquires of `id`: a `Get`
of `id` that returned no error adds one, a `Put` of `id` takes one away. -/
def Call.delta (id : String) : Call → Result → Int
  | Call.Get k _, Result.path _ none => if k = id then 1 else 0
  | Call.Put k, _ => if k = id then -1 else 0
  | _, _ => 0

/-- The number of outstanding acquires of `id` over a sequence of calls of the
`mqueue` driver started in state `s`: the successful `Get` calls of `id` minus
the `Put` calls of `id`. -/
def mqueue.outstanding (id : String) (s : Driver × World) : List (Outcome × Call) → Int
  | [] => 0
  | oc :: rest =>
    Call.delta id oc.2 (mqueue.step s oc.1 oc.2).1 +
      mqueue.outstanding id (mqueue.step s oc.1 oc.2).2 rest

/-- Releases of `id` never exceed its prior acquires: after every initial part
of the sequence the number of outstanding acquires of `id` is not negative. -/
def mqueue.paired (id : String) (s : Driver × World) (cs : List (Outcome × Call)) : Prop :=
  ∀ n, n ≤ cs.length → 0 ≤ mqueue.outstanding id s (cs.take n)

/-- Every record has a count of at least one and at most `n`. -/
def CountsWithin (d : Driver) (n : Int) : Prop :=
  ∀ id m, d.active id = some m → 1 ≤ m.count ∧ m.count ≤ n

/-- The record of `id`, if any, has count `b`, and `b` is zero without record. -/
def CountIs (id : String) (d : Driver) (b : Int) : Prop :=
  (∀ m, d.active id = some m → m.count = b) ∧ (d.active id = none → b = 0)

/-! ## Example states -/

/-- A driver rooted at `/state` in which `L1` is held once. -/
def exHeld : Driver :=
  { home := "/state"
    active := fun k => if k = "L1" then some ⟨1, "/state/dir/L1", true⟩ else none }

/-- A driver rooted at `/state` in which `L1` is held twice. -/
def exHeldTwice : Driver :=
  { home := "/state"
    active := fun k => if k = "L1" then some ⟨2, "/state/dir/L1", true⟩ else none }

/-- A driver rooted at `/state` in which the count of `L1` is the largest
`int`. -/
def exLargest : Driver :=
  { home := "/state"
    active := fun k => if k = "L1" then some ⟨Go.maxInt, "/state/dir/L1", true⟩ else none }

/-- A world in which only the directory of `L1` is present and nothing is
mounted. -/
def exCreated : World :=
  { dirs := fun q => q = "/state/dir/L1", mounts := [], calls := [], covered := fun _ => [] }

/-- A world in which the directory of `L1` is present and mounted. -/
def exMounted : World :=
  { dirs := fun q => q = "/state/dir/L1", mounts := ["/state/dir/L1"], calls := [],
    covered := fun k => if k = "/state/dir/L1" then [fun _ => false] else [] }

/-- A world with an empty disk. -/
def exBare : World :=
  { dirs := fun _ => false, mounts := [], calls := [], covered := fun _ => [] }

/-- An outcome in which mounting and unmounting fail. -/
def exBusy : Outcome :=
  { mkdirAll := none, removeAll := none, mount := some "device or resource busy",
    unmount := some "device or resource busy" }

/-- An outcome in which the creation of a directory is refused. -/
def exDenied : Outcome :=
  { mkdirAll := some "permission denied", removeAll := none, mount := none, unmount := none }

/-- A world in which only `/state` and `/state/dir` are present. -/
def exRoot : World :=
  { dirs := fun q => q = "/state" || q = "/state/dir", mounts := [], calls := [],
    covered := fun _ => [] }

/-- The calls `Create`, `Get`, `Get`, `Put` of `L1`, all answered with
success. -/
def exCalls : List (Outcome × Call) :=
  [(Outcome.ok, Call.Create "L1" ""), (Outcome.ok, Call.Get "L1" ""),
   (Outcome.ok, Call.Get "L1" ""), (Outcome.ok, Call.Put "L1")]

/-! ## The single parameterised driver of the specification -/

/-- The table of a variant in the specification: the record `MountSpec`
(filesystem type, source, flags, options) together with the driver name. -/
structure Spec.MountSpec where
  name : String
  fsType : String
  source : String
  flags : Nat
  options : String
  deriving DecidableEq, Repr

/-- The table row of the shared-memory variant. -/
def Spec.shmSpec : Spec.MountSpec :=
  { name := "shm", fsType := "tmpfs", source := "tmpfs",
    flags := syscall.MS_NODEV ||| syscall.MS_NOSUID ||| syscall.MS_NOEXEC,
    options := "mode=1777,size=65536k" }

/-- The table row of the message-queue variant. -/
def Spec.mqueueSpec : Spec.MountSpec :=
  { name := "mqueue", fsType := "mqueue", source := "mqueue",
    flags := syscall.MS_NODEV ||| syscall.MS_NOSUID ||| syscall.MS_NOEXEC,
    options := "" }

/-- The operation `resolve` of the specification: `root/dir/basename(id)`. -/
def Spec.resolve (d : Driver) (id : String) : String :=
  path.Join [d.home, "dir", path.Base id]

/-- The operation `create` of the specification: `ParentNotSupported` for a
non-empty parent, else the resolved directory is created with its ancestors. -/
def Spec.create (t : Spec.MountSpec) (d : Driver) (w : World) (o : Outcome)
    (id parent : String) : Option Error × Driver × World :=
  if parent = "" then
    ((os.MkdirAll w o (Spec.resolve d id) 0o700).1, d,
     (os.MkdirAll w o (Spec.resolve d id) 0o700).2)
  else (some (t.name ++ " driver doesn't support parent"), d, w)

/-- The operation `remove` of the specification: `NotFound` from the existence
probe if the directory is absent, else the recursive delete. -/
def Spec.remove (d : Driver) (w : World) (o : Outcome) (id : String) :
    Option Error × Driver × World :=
  if (os.Stat w (Spec.resolve d id)).1 = none then
    ((os.RemoveAll (os.Stat w (Spec.resolve d id)).2 o (Spec.resolve d id)).1, d,
     (os.RemoveAll (os.Stat w (Spec.resolve d id)).2 o (Spec.resolve d id)).2)
  else ((os.Stat w (Spec.resolve d id)).1, d, (os.Stat w (Spec.resolve d id)).2)

/-- The operation `exists` of the specification: whether the resolved directory
is present. -/
def Spec.existsDir (d : Driver) (w : World) (id : String) : Bool × Driver × World :=
  ((os.Stat w (Spec.resolve d id)).1.isNone, d, (os.Stat w (Spec.resolve d id)).2)

/-- The operation `Acquire` of the specification, steps 2 to 5: an existing
record has its refcount incremented and its path returned; else the directory
must exist (`NotFound`), the mount of the table row is performed
(`MountFailed` with the path and the cause), and the record
`{refcount: 1, path, mounted: true}` is stored. -/
def Spec.Acquire (t : Spec.MountSpec) (d : Driver) (w : World) (o : Outcome) (id : String) :
    (String × Option Error) × Driver × World :=
  match d.active id with
  | some r => ((r.path, none), d.store id ⟨Go.incr r.count, r.path, r.mounted⟩, w)
  | none =>
    match os.Stat w (Spec.resolve d id) with
    | (some notFound, w1) => (("", some notFound), d, w1)
    | (none, w1) =>
      match syscall.Mount w1 o t.source (Spec.resolve d id) t.fsType t.flags t.options with
      | (some cause, w2) =>
        (("", some ("error creating " ++ t.fsType ++ " mount to " ++ Spec.resolve d id ++ ": "
            ++ cause)), d, w2)
      | (none, w2) => ((Spec.resolve d id, none), d.store id ⟨1, Spec.resolve d id, true⟩, w2)

/-- The operation `Release` of the specification, steps 2 to 4: no record is a
no-op; a refcount still above zero after the decrement is stored; at zero the
record is removed and, if it was marked mounted, the path is unmounted and the
result of the unmount is returned. -/
def Spec.Release (d : Driver) (w : World) (o : Outcome) (id : String) :
    Option Error × Driver × World :=
  match d.active id with
  | none => (none, d, w)
  | some r =>
    if 0 < Go.decr r.count then (none, d.store id ⟨Go.decr r.count, r.path, r.mounted⟩, w)
    else if r.mounted then
      ((syscall.Unmount w o r.path 0).1, d.delete id, (syscall.Unmount w o r.path 0).2)
    else (none, d.delete id, w)

/-- One call of the parameterised driver. -/
def Spec.step (t : Spec.MountSpec) (s : Driver × World) (o : Outcome) :
    Call → Result × (Driver × World)
  | Call.Create id parent =>
    (Result.error (Spec.create t s.1 s.2 o id parent).1, (Spec.create t s.1 s.2 o id parent).2)
  | Call.Remove id => (Result.error (Spec.remove s.1 s.2 o id).1, (Spec.remove s.1 s.2 o id).2)
  | Call.Get id _ =>
    (Result.path (Spec.Acquire t s.1 s.2 o id).1.1 (Spec.Acquire t s.1 s.2 o id).1.2,
     (Spec.Acquire t s.1 s.2 o id).2)
  | Call.Put id => (Result.error (Spec.Release s.1 s.2 o id).1, (Spec.Release s.1 s.2 o id).2)
  | Call.Exists id => (Result.bool (Spec.existsDir s.1 s.2 id).1, (Spec.existsDir s.1 s.2 id).2)
  | Call.Status => (Result.status [], s)
  | Call.Cleanup => (Result.error none, s)

/-- A sequence of calls of the parameterised driver. -/
def Spec.run (t : Spec.MountSpec) (s : Driver × World) :
    List (Outcome × Call) → List Result × (Driver × World)
  | [] => ([], s)
  | oc :: rest =>
    ((Spec.step t s oc.1 oc.2).1 :: (Spec.run t (Spec.step t s oc.1 oc.2).2 rest).1,
     (Spec.run t (Spec.step t s oc.1 oc.2).2 rest).2)

/-- A system call without what the table of the variant supplies: of a mount
the target and the flags are kept, the source, type and options are blanked. -/
def Syscall.erase : Syscall → Syscall
  | Syscall.mount _ target _ flags _ => Syscall.mount "" target "" flags ""
  | c => c

/-- A result without the text of its error: success or failure, the returned
path, the boolean and the status rows are kept. -/
def Result.erase : Result → Result
  | Result.error (some _) => Result.error (some "")
  | Result.path dir (some _) => Result.path dir (some "")
  | r => r

/-! ## Invariants of the registry -/

/-- The calls `Create`, `Get` and `Put`. -/
def Call.isCreateGetPut : Call → Bool
  | Call.Create _ _ => true
  | Call.Get _ _ => true
  | Call.Put _ => true
  | _ => false

/-- Every record is marked mounted and holds the directory of its key. -/
def WellFormed (d : Driver) : Prop :=
  ∀ id m, d.active id = some m → m.mounted = true ∧ m.path = mqueue.dir d id

/-- The mount table holds exactly one mount per record, on the directory of
its key: it is a rearrangement of the directories of the keys in use. -/
def MountsMatch (d : Driver) (w : World) : Prop :=
  ∃ ks : List String, ks.Nodup ∧ (∀ id, id ∈ ks ↔ d.active id ≠ none) ∧
    w.mounts.Perm (ks.map (mqueue.dir d))

/-- The mount table holds at least one mount per record, on the directory of
its key: it is a rearrangement of the directories of the keys in use and of
further mount points. -/
def MountsCover (d : Driver) (w : World) : Prop :=
  ∃ ks extra : List String, ks.Nodup ∧ (∀ id, id ∈ ks ↔ d.active id ≠ none) ∧
    w.mounts.Perm (ks.map (mqueue.dir d) ++ extra)

/-- The directory of every key in use is found on the disk. -/
def DirsPresent (d : Driver) (w : World) : Prop :=
  ∀ id, d.active id ≠ none → w.dirs (mqueue.dir d id) = true

/-- The identifiers passed to `Get` in a sequence of calls. -/
def Call.acquired : List (Outcome × Call) → List String
  | [] => []
  | oc :: rest =>
    match oc.2 with
    | Call.Get id _ => id :: Call.acquired rest
    | _ => Call.acquired rest

/-- The kernel refuses to remove a mount point: along the sequence of calls
started in state `s`, every `Remove` that returns no error is called when no
mount point lies at or below the directory it removes. -/
def mqueue.busyRefused (s : Driver × World) : List (Outcome × Call) → Bool
  | [] => true
  | oc :: rest =>
    (match oc.2 with
     | Call.Remove id =>
       (mqueue.Remove s.1 s.2 oc.1 id).1.isSome ||
         s.2.mounts.all (fun p => !path.below (mqueue.dir s.1 id) p)
     | _ => true) &&
    mqueue.busyRefused (mqueue.step s oc.1 oc.2).2 rest

/-- The calls `Create("L1", "")`, `Get("L1", _)` and `Get("..", _)`, all
answered with success: the last one mounts on `/state`, above the directory of
`L1`. -/
def exCovered : List (Outcome × Call) :=
  [(Outcome.ok, Call.Create "L1" ""), (Outcome.ok, Call.Get "L1" ""),
   (Outcome.ok, Call.Get ".." "")]

/-- The calls `Create`, `Get`, `Remove` of `L1`, the removal refused because
the directory is a mount point. -/
def exRefused : List (Outcome × Call) :=
  [(Outcome.ok, Call.Create "L1" ""), (Outcome.ok, Call.Get "L1" ""),
   ({ mkdirAll := none, removeAll := some "device or resource busy", mount := none,
      unmount := none }, Call.Remove "L1")]

/-- A world in which only the directory `/state/dir/x` is present and nothing
is mounted. -/
def exShared : World :=
  { dirs := fun q => q = "/state/dir/x", mounts := [], calls := [], covered := fun _ => [] }

/-- The calls `Create("x", "")` and `Get("a/x", _)`, answered with success. -/
def exAliased : List (Outcome × Call) :=
  [(Outcome.ok, Call.Create "x" ""), (Outcome.ok, Call.Get "a/x" "")]

/-! ## Arithmetic of Go's `int` -/

theorem Go.incr_of_ne_max (c : Int) (h : c ≠ Go.maxInt) : Go.incr c = c + 1 := by
  simp [Go.incr, h]

theorem Go.incr_max : Go.incr Go.maxInt = Go.minInt := by
  simp [Go.incr]

theorem Go.decr_of_pos (c : Int) (h : 1 ≤ c) : Go.decr c = c - 1 := by
  have hne : c ≠ Go.minInt := by unfold Go.minInt; omega
  simp [Go.decr, hne]

theorem Go.decr_one : Go.decr 1 = 0 := by
  rw [Go.decr_of_pos 1 (by omega)]; rfl

/-- On the values of an `int`, `c++` is addition modulo `2^64`. -/
theorem Go.incr_eq_mod (c : Int) (hlo : Go.minInt ≤ c) (hhi : c ≤ Go.maxInt) :
    Go.incr c = (c + 1 + 9223372036854775808) % 18446744073709551616 - 9223372036854775808 := by
  unfold Go.minInt at hlo
  unfold Go.maxInt at hhi
  unfold Go.incr Go.maxInt Go.minInt
  split <;> omega

/-- On the values of an `int`, `c--` is subtraction modulo `2^64`. -/
theorem Go.decr_eq_mod (c : Int) (hlo : Go.minInt ≤ c) (hhi : c ≤ Go.maxInt) :
    Go.decr c = (c - 1 + 9223372036854775808) % 18446744073709551616 - 9223372036854775808 := by
  unfold Go.minInt at hlo
  unfold Go.maxInt at hhi
  unfold Go.decr Go.maxInt Go.minInt
  split <;> omega

/-- The values of an `int` are closed under `c++` and `c--`, and `c--` undoes
`c++`. -/
theorem Go.decr_incr (c : Int) (hlo : Go.minInt ≤ c) (hhi : c ≤ Go.maxInt) :
    Go.minInt ≤ Go.incr c ∧ Go.incr c ≤ Go.maxInt ∧ Go.decr (Go.incr c) = c := by
  unfold Go.minInt at hlo
  unfold Go.maxInt at hhi
  unfold Go.decr Go.incr Go.maxInt Go.minInt
  split <;> split <;> omega

/-! ## Single calls of `Get` and `Put` -/

/-- C2 fails at the largest count: when the record of `L1` holds the largest
`int`, `Get` in both drivers stores the smallest `int`, which is not the count
raised by one. -/
theorem Get_at_largest_count :
    exLargest.active "L1" = some ⟨Go.maxInt, "/state/dir/L1", true⟩ ∧
    (shm.Get exLargest exMounted Outcome.ok "L1" "").2.1.active "L1" =
      some ⟨Go.minInt, "/state/dir/L1", true⟩ ∧
    (mqueue.Get exLargest exMounted Outcome.ok "L1" "").2.1.active "L1" =
      some ⟨Go.minInt, "/state/dir/L1", true⟩ ∧
    Go.minInt ≠ Go.maxInt + 1 ∧ Go.minInt < Go.maxInt := by
  refine ⟨?_, ?_, ?_, ?_, ?_⟩ <;> decide

/-- C2 as amended: when the registry holds a record `m` for `id` whose count
is not the largest `int`, `Get` returns the path of `m` and no error, the
record of `id` has its count raised by one and its path and mounted flag kept,
every other key and the home are unchanged, and the world is unchanged, so
that neither `Stat` nor `Mount` is called; the label plays no part.  This holds
in both drivers. -/
theorem Get_existing_record (d : Driver) (w : World) (o : Outcome) (id mountLabel : String)
    (m : ActiveMount) (h : d.active id = some m) (hmax : m.count ≠ Go.maxInt) :
    ((shm.Get d w o id mountLabel).1 = (m.path, none) ∧
      (shm.Get d w o id mountLabel).2.2 = w ∧
      (shm.Get d w o id mountLabel).2.1.home = d.home ∧
      (shm.Get d w o id mountLabel).2.1.active id = some ⟨m.count + 1, m.path, m.mounted⟩ ∧
      ∀ k, k ≠ id → (shm.Get d w o id mountLabel).2.1.active k = d.active k) ∧
    ((mqueue.Get d w o id mountLabel).1 = (m.path, none) ∧
      (mqueue.Get d w o id mountLabel).2.2 = w ∧
      (mqueue.Get d w o id mountLabel).2.1.home = d.home ∧
      (mqueue.Get d w o id mountLabel).2.1.active id = some ⟨m.count + 1, m.path, m.mounted⟩ ∧
      ∀ k, k ≠ id → (mqueue.Get d w o id mountLabel).2.1.active k = d.active k) := by
  have hincr : Go.incr m.count = m.count + 1 := Go.incr_of_ne_max m.count hmax
  refine ⟨⟨?_, ?_, ?_, ?_, ?_⟩, ⟨?_, ?_, ?_, ?_, ?_⟩⟩ <;>
    first
    | (intro k hk; simp [shm.Get, mqueue.Get, h, hincr, Driver.store, hk])
    | simp [shm.Get, mqueue.Get, h, hincr, Driver.store]

/-- Witness of the amended C2 at the driver holding `L1` once. -/
theorem Get_existing_record_witness :
    exHeld.active "L1" = some ⟨1, "/state/dir/L1", true⟩ ∧
    (1 : Int) ≠ Go.maxInt ∧
    (shm.Get exHeld exMounted exBusy "L1" "label").1 = ("/state/dir/L1", none) ∧
    (mqueue.Get exHeld exMounted exBusy "L1" "label").2.1.active "L1" =
      some ⟨2, "/state/dir/L1", true⟩ :=
  ⟨by decide, by decide,
   (Get_existing_record exHeld exMounted exBusy "L1" "label" ⟨1, "/state/dir/L1", true⟩
      (by decide) (by decide)).1.1,
   (Get_existing_record exHeld exMounted exBusy "L1" "label" ⟨1, "/state/dir/L1", true⟩
      (by decide) (by decide)).2.2.2.2.1⟩

/-- C3: with no record for `id`, the directory of `id` present and the mount
succeeding, `Get` returns that directory and no error, issues `Stat` and then
exactly one `Mount` on it with flags no-device, no-setuid, no-exec (`tmpfs` with
`mode=1777,size=65536k` in `shm`, `mqueue` with no options in `mqueue`), which
becomes a mount point, stores the record with count 1, that path and mounted
set under `id`, and leaves every other key and the home unchanged; the
directories inside the mounted directory are covered and every other directory
is found as before, so that the disk is unchanged when the directory was
empty. -/
theorem Get_first_acquire (d : Driver) (w : World) (o : Outcome) (id mountLabel : String)
    (hnone : d.active id = none) (hdir : w.dirs (shm.dir d id) = true)
    (hmount : o.mount = none) :
    ((shm.Get d w o id mountLabel).1 = (shm.dir d id, none) ∧
      (shm.Get d w o id mountLabel).2.2.calls = w.calls ++
        [Syscall.stat (shm.dir d id),
         Syscall.mount "tmpfs" (shm.dir d id) "tmpfs"
           (syscall.MS_NODEV ||| syscall.MS_NOSUID ||| syscall.MS_NOEXEC)
           "mode=1777,size=65536k"] ∧
      (shm.Get d w o id mountLabel).2.2.mounts = shm.dir d id :: w.mounts ∧
      (shm.Get d w o id mountLabel).2.2.dirs =
        (fun q => w.dirs q && !path.inside (shm.dir d id) q) ∧
      ((∀ q, path.inside (shm.dir d id) q = true → w.dirs q = false) →
        (shm.Get d w o id mountLabel).2.2.dirs = w.dirs) ∧
      (shm.Get d w o id mountLabel).2.1.home = d.home ∧
      (shm.Get d w o id mountLabel).2.1.active id = some ⟨1, shm.dir d id, true⟩ ∧
      ∀ k, k ≠ id → (shm.Get d w o id mountLabel).2.1.active k = d.active k) ∧
    ((mqueue.Get d w o id mountLabel).1 = (mqueue.dir d id, none) ∧
      (mqueue.Get d w o id mountLabel).2.2.calls = w.calls ++
        [Syscall.stat (mqueue.dir d id),
         Syscall.mount "mqueue" (mqueue.dir d id) "mqueue"
           (syscall.MS_NODEV ||| syscall.MS_NOSUID ||| syscall.MS_NOEXEC) ""] ∧
      (mqueue.Get d w o id mountLabel).2.2.mounts = mqueue.dir d id :: w.mounts ∧
      (mqueue.Get d w o id mountLabel).2.2.dirs =
        (fun q => w.dirs q && !path.inside (mqueue.dir d id) q) ∧
      ((∀ q, path.inside (mqueue.dir d id) q = true → w.dirs q = false) →
        (mqueue.Get d w o id mountLabel).2.2.dirs = w.dirs) ∧
      (mqueue.Get d w o id mountLabel).2.1.home = d.home ∧
      (mqueue.Get d w o id mountLabel).2.1.active id = some ⟨1, mqueue.dir d id, true⟩ ∧
      ∀ k, k ≠ id → (mqueue.Get d w o id mountLabel).2.1.active k = d.active k) := by
  have hdir2 : w.dirs (mqueue.dir d id) = true := hdir
  have hempty : ∀ p : String, (∀ q, path.inside p q = true → w.dirs q = false) →
      (fun q => w.dirs q && !path.inside p q) = w.dirs := by
    intro p hp
    funext q
    cases hq : path.inside p q
    · simp
    · simp [hp q hq]
  refine ⟨⟨?_, ?_, ?_, ?_, ?_, ?_, ?_, ?_⟩, ⟨?_, ?_, ?_, ?_, ?_, ?_, ?_, ?_⟩⟩ <;>
    first
    | (intro k hk
       simp [shm.Get, mqueue.Get, hnone, hdir, hdir2, hmount, os.Stat, syscall.Mount,
         Driver.store, hk])
    | (intro hp
       simp [shm.Get, mqueue.Get, hnone, hdir, hdir2, hmount, os.Stat, syscall.Mount]
       exact hempty _ hp)
    | simp [shm.Get, mqueue.Get, hnone, hdir, hdir2, hmount, os.Stat, syscall.Mount,
        Driver.store]

/-- Witness of C3: the first `Get` of `L1` under `/state`. -/
theorem Get_first_acquire_witness :
    (shm.Init "/state" []).active "L1" = none ∧
    exCreated.dirs (shm.dir (shm.Init "/state" []) "L1") = true ∧
    Outcome.ok.mount = none ∧
    (shm.Get (shm.Init "/state" []) exCreated Outcome.ok "L1" "").1 =
      (shm.dir (shm.Init "/state" []) "L1", none) ∧
    shm.dir (shm.Init "/state" []) "L1" = "/state/dir/L1" :=
  ⟨rfl, by decide, rfl,
   (Get_first_acquire (shm.Init "/state" []) exCreated Outcome.ok "L1" "" rfl (by decide)
      rfl).1.1,
   by decide⟩

/-- C4: when the record `m` of `id` has count 1, `Put` removes the record of
`id` and leaves every other key and the home unchanged, whatever the unmount
answers.  If `m` is marked mounted, exactly one `Unmount` of the path of `m` is
issued and `Put` returns what it answered, an error exactly when it failed; if
`m` is not marked mounted nothing is issued and `Put` returns no error. -/
theorem Put_last_release (d : Driver) (w : World) (o : Outcome) (id : String)
    (m : ActiveMount) (h : d.active id = some m) (hcount : m.count = 1) :
    ((shm.Put d w o id).2.1.active id = none ∧
      (∀ k, k ≠ id → (shm.Put d w o id).2.1.active k = d.active k) ∧
      (shm.Put d w o id).2.1.home = d.home ∧
      (m.mounted = true →
        (shm.Put d w o id).2.2.calls = w.calls ++ [Syscall.unmount m.path 0] ∧
        (shm.Put d w o id).1 = o.unmount ∧
        ((shm.Put d w o id).1 ≠ none ↔ o.unmount ≠ none)) ∧
      (m.mounted = false → (shm.Put d w o id).2.2 = w ∧ (shm.Put d w o id).1 = none)) ∧
    ((mqueue.Put d w o id).2.1.active id = none ∧
      (∀ k, k ≠ id → (mqueue.Put d w o id).2.1.active k = d.active k) ∧
      (mqueue.Put d w o id).2.1.home = d.home ∧
      (m.mounted = true →
        (mqueue.Put d w o id).2.2.calls = w.calls ++ [Syscall.unmount m.path 0] ∧
        (mqueue.Put d w o id).1 = o.unmount ∧
        ((mqueue.Put d w o id).1 ≠ none ↔ o.unmount ≠ none)) ∧
      (m.mounted = false →
        (mqueue.Put d w o id).2.2 = w ∧ (mqueue.Put d w o id).1 = none)) := by
  have hzero : Go.decr m.count = 0 := by rw [hcount]; exact Go.decr_one
  refine ⟨⟨?_, ?_, ?_, ?_, ?_⟩, ⟨?_, ?_, ?_, ?_, ?_⟩⟩ <;>
    first
    | (intro k hk
       cases hm : m.mounted <;>
         simp [shm.Put, mqueue.Put, h, hzero, hm, Driver.delete, hk])
    | (intro hm
       cases ho : o.unmount <;>
         simp [shm.Put, mqueue.Put, h, hzero, hm, ho, Driver.delete, syscall.Unmount])
    | (cases hm : m.mounted <;>
         simp [shm.Put, mqueue.Put, h, hzero, hm, Driver.delete])

/-- Witness of C4: the last `Put` of `L1` when the unmount fails. -/
theorem Put_last_release_witness :
    exHeld.active "L1" = some ⟨1, "/state/dir/L1", true⟩ ∧
    (shm.Put exHeld exMounted exBusy "L1").2.1.active "L1" = none ∧
    (mqueue.Put exHeld exMounted exBusy "L1").2.1.active "L1" = none :=
  ⟨by decide,
   (Put_last_release exHeld exMounted exBusy "L1" ⟨1, "/state/dir/L1", true⟩ (by decide)
      rfl).1.1,
   (Put_last_release exHeld exMounted exBusy "L1" ⟨1, "/state/dir/L1", true⟩ (by decide)
      rfl).2.1⟩

/-- C5: when the record `m` of `id` has a count above 1, `Put` returns no
error, leaves the world unchanged, so that no `Unmount` is called, and keeps
the record of `id` with the count lowered by one and the same path and mounted
flag; every other key and the home are unchanged. -/
theorem Put_still_held (d : Driver) (w : World) (o : Outcome) (id : String)
    (m : ActiveMount) (h : d.active id = some m) (hcount : 1 < m.count) :
    ((shm.Put d w o id).1 = none ∧
      (shm.Put d w o id).2.2 = w ∧
      (shm.Put d w o id).2.1.home = d.home ∧
      (shm.Put d w o id).2.1.active id = some ⟨m.count - 1, m.path, m.mounted⟩ ∧
      ∀ k, k ≠ id → (shm.Put d w o id).2.1.active k = d.active k) ∧
    ((mqueue.Put d w o id).1 = none ∧
      (mqueue.Put d w o id).2.2 = w ∧
      (mqueue.Put d w o id).2.1.home = d.home ∧
      (mqueue.Put d w o id).2.1.active id = some ⟨m.count - 1, m.path, m.mounted⟩ ∧
      ∀ k, k ≠ id → (mqueue.Put d w o id).2.1.active k = d.active k) := by
  have hpos : 0 < m.count - 1 := by omega
  have hdecr : Go.decr m.count = m.count - 1 := Go.decr_of_pos m.count (by omega)
  refine ⟨⟨?_, ?_, ?_, ?_, ?_⟩, ⟨?_, ?_, ?_, ?_, ?_⟩⟩ <;>
    first
    | (intro k hk; simp [shm.Put, mqueue.Put, h, hdecr, hpos, Driver.store, hk])
    | simp [shm.Put, mqueue.Put, h, hdecr, hpos, Driver.store]

/-- Witness of C5: a `Put` of `L1` held twice. -/
theorem Put_still_held_witness :
    exHeldTwice.active "L1" = some ⟨2, "/state/dir/L1", true⟩ ∧
    (shm.Put exHeldTwice exMounted exBusy "L1").2.1.active "L1" =
      some ⟨2 - 1, "/state/dir/L1", true⟩ ∧
    (mqueue.Put exHeldTwice exMounted exBusy "L1").1 = none :=
  ⟨by decide,
   (Put_still_held exHeldTwice exMounted exBusy "L1" ⟨2, "/state/dir/L1", true⟩ (by decide)
      (by decide)).1.2.2.2.1,
   (Put_still_held exHeldTwice exMounted exBusy "L1" ⟨2, "/state/dir/L1", true⟩ (by decide)
      (by decide)).2.1⟩

/-- C6: when the registry holds no record for `id`, `Put` returns no error
and leaves the driver and the world exactly as they were: the registry, the
disk, the mount table and the log of calls are unchanged, so that no `Unmount`
is called. -/
theorem Put_without_record (d : Driver) (w : World) (o : Outcome) (id : String)
    (h : d.active id = none) :
    shm.Put d w o id = (none, d, w) ∧ mqueue.Put d w o id = (none, d, w) := by
  constructor <;> simp [shm.Put, mqueue.Put, h]

/-- Witness of C6: a `Put` of `L2`, which is not held. -/
theorem Put_without_record_witness :
    exHeld.active "L2" = none ∧
    shm.Put exHeld exMounted exBusy "L2" = (none, exHeld, exMounted) :=
  ⟨by decide, (Put_without_record exHeld exMounted exBusy "L2" (by decide)).1⟩

/-- C7: with no record for `id` and the directory of `id` absent, `Get`
returns the empty path and an error, issues only the `Stat` (no `Mount`),
leaves the disk and the mount table unchanged and leaves the driver exactly as
it was, so that no record is created; therefore a later `Get` of `id`, in any
later world such as one where the directory has been created, does exactly
what it does on the driver that never saw the failed call. -/
theorem Get_missing_directory (d : Driver) (w : World) (o : Outcome) (id mountLabel : String)
    (hnone : d.active id = none) (hdir : w.dirs (shm.dir d id) = false) :
    ((shm.Get d w o id mountLabel).1.1 = "" ∧
      (shm.Get d w o id mountLabel).1.2 ≠ none ∧
      (shm.Get d w o id mountLabel).2.2.calls = w.calls ++ [Syscall.stat (shm.dir d id)] ∧
      (shm.Get d w o id mountLabel).2.2.mounts = w.mounts ∧
      (shm.Get d w o id mountLabel).2.2.dirs = w.dirs ∧
      (shm.Get d w o id mountLabel).2.1 = d ∧
      ∀ (w2 : World) (o2 : Outcome) (label2 : String),
        shm.Get (shm.Get d w o id mountLabel).2.1 w2 o2 id label2 =
          shm.Get d w2 o2 id label2) ∧
    ((mqueue.Get d w o id mountLabel).1.1 = "" ∧
      (mqueue.Get d w o id mountLabel).1.2 ≠ none ∧
      (mqueue.Get d w o id mountLabel).2.2.calls =
        w.calls ++ [Syscall.stat (mqueue.dir d id)] ∧
      (mqueue.Get d w o id mountLabel).2.2.mounts = w.mounts ∧
      (mqueue.Get d w o id mountLabel).2.2.dirs = w.dirs ∧
      (mqueue.Get d w o id mountLabel).2.1 = d ∧
      ∀ (w2 : World) (o2 : Outcome) (label2 : String),
        mqueue.Get (mqueue.Get d w o id mountLabel).2.1 w2 o2 id label2 =
          mqueue.Get d w2 o2 id label2) := by
  have hdir2 : w.dirs (mqueue.dir d id) = false := hdir
  have hs : (shm.Get d w o id mountLabel).2.1 = d := by
    simp [shm.Get, hnone, hdir, os.Stat]
  have hq : (mqueue.Get d w o id mountLabel).2.1 = d := by
    simp [mqueue.Get, hnone, hdir2, os.Stat]
  refine ⟨⟨?_, ?_, ?_, ?_, ?_, hs, ?_⟩, ⟨?_, ?_, ?_, ?_, ?_, hq, ?_⟩⟩ <;>
    first
    | (intro w2 o2 label2; rw [hs])
    | (intro w2 o2 label2; rw [hq])
    | simp [shm.Get, mqueue.Get, hnone, hdir, hdir2, os.Stat]

/-- Witness of C7: `Get` of `L1` on an empty disk, and the retry once the
directory is there. -/
theorem Get_missing_directory_witness :
    (shm.Init "/state" []).active "L1" = none ∧
    exBare.dirs (shm.dir (shm.Init "/state" []) "L1") = false ∧
    (shm.Get (shm.Init "/state" []) exBare Outcome.ok "L1" "").1.1 = "" ∧
    (shm.Get (shm.Get (shm.Init "/state" []) exBare Outcome.ok "L1" "").2.1 exCreated
        Outcome.ok "L1" "").1 = ("/state/dir/L1", none) :=
  ⟨rfl, by decide,
   (Get_missing_directory (shm.Init "/state" []) exBare Outcome.ok "L1" "" rfl
      (by decide)).1.1,
   (congrArg Prod.fst ((Get_missing_directory (shm.Init "/state" []) exBare Outcome.ok "L1" ""
      rfl (by decide)).1.2.2.2.2.2.2 exCreated Outcome.ok "")).trans (by decide)⟩

/-- C8: with no record for `id`, the directory of `id` present and the mount
failing with error `e`, `Get` returns the empty path and an error whose message
is made of the variant text, the path of the directory and `e`; it has issued
the `Stat` and the one failed `Mount`, the mount table and the disk are
unchanged, and the driver is exactly as it was, so that no record is stored. -/
theorem Get_mount_failure (d : Driver) (w : World) (o : Outcome) (id mountLabel : String)
    (e : Error) (hnone : d.active id = none) (hdir : w.dirs (shm.dir d id) = true)
    (hmount : o.mount = some e) :
    ((shm.Get d w o id mountLabel).1 =
        ("", some ("error creating tmpfs mount to " ++ shm.dir d id ++ ": " ++ e)) ∧
      (shm.Get d w o id mountLabel).2.1 = d ∧
      (shm.Get d w o id mountLabel).2.2.calls = w.calls ++
        [Syscall.stat (shm.dir d id),
         Syscall.mount "tmpfs" (shm.dir d id) "tmpfs"
           (syscall.MS_NODEV ||| syscall.MS_NOSUID ||| syscall.MS_NOEXEC)
           "mode=1777,size=65536k"] ∧
      (shm.Get d w o id mountLabel).2.2.mounts = w.mounts ∧
      (shm.Get d w o id mountLabel).2.2.dirs = w.dirs) ∧
    ((mqueue.Get d w o id mountLabel).1 =
        ("", some ("error creating mqueue mount to " ++ mqueue.dir d id ++ ": " ++ e)) ∧
      (mqueue.Get d w o id mountLabel).2.1 = d ∧
      (mqueue.Get d w o id mountLabel).2.2.calls = w.calls ++
        [Syscall.stat (mqueue.dir d id),
         Syscall.mount "mqueue" (mqueue.dir d id) "mqueue"
           (syscall.MS_NODEV ||| syscall.MS_NOSUID ||| syscall.MS_NOEXEC) ""] ∧
      (mqueue.Get d w o id mountLabel).2.2.mounts = w.mounts ∧
      (mqueue.Get d w o id mountLabel).2.2.dirs = w.dirs) := by
  have hdir2 : w.dirs (mqueue.dir d id) = true := hdir
  refine ⟨⟨?_, ?_, ?_, ?_, ?_⟩, ⟨?_, ?_, ?_, ?_, ?_⟩⟩ <;>
    simp [shm.Get, mqueue.Get, hnone, hdir, hdir2, hmount, os.Stat, syscall.Mount]

/-- Witness of C8: the first `Get` of `L1` when the mount is refused. -/
theorem Get_mount_failure_witness :
    (shm.Init "/state" []).active "L1" = none ∧
    exCreated.dirs (shm.dir (shm.Init "/state" []) "L1") = true ∧
    exBusy.mount = some "device or resource busy" ∧
    (shm.Get (shm.Init "/state" []) exCreated exBusy "L1" "").1 =
      ("", some "error creating tmpfs mount to /state/dir/L1: device or resource busy") :=
  ⟨rfl, by decide, rfl,
   ((Get_mount_failure (shm.Init "/state" []) exCreated exBusy "L1" ""
      "device or resource busy" rfl (by decide) rfl).1.1).trans (by decide)⟩

/-! ## Sequences of calls -/

theorem Driver.store_store (d : Driver) (id : String) (a b : ActiveMount) :
    (d.store id a).store id b = d.store id b := by
  unfold Driver.store
  congr 1
  funext k
  by_cases hk : k = id <;> simp [hk]

theorem Driver.delete_store (d : Driver) (id : String) (a : ActiveMount) :
    (d.store id a).delete id = d.delete id := by
  unfold Driver.store Driver.delete
  congr 1
  funext k
  by_cases hk : k = id <;> simp [hk]

theorem Driver.delete_absent (d : Driver) (id : String) (h : d.active id = none) :
    d.delete id = d := by
  cases d with
  | mk home active =>
    unfold Driver.delete
    congr 1
    funext k
    by_cases hk : k = id
    · subst hk; simpa using h.symm
    · simp [hk]

theorem shm_run_append (s : Driver × World) (a b : List (Outcome × Call)) :
    shm.run s (a ++ b) =
      ((shm.run s a).1 ++ (shm.run (shm.run s a).2 b).1, (shm.run (shm.run s a).2 b).2) := by
  induction a generalizing s with
  | nil => simp [shm.run]
  | cons oc rest ih => simp [shm.run, ih]

theorem Go.iterate_incr_range (k : Nat) :
    Go.minInt ≤ Go.incr^[k] 1 ∧ Go.incr^[k] 1 ≤ Go.maxInt := by
  induction k with
  | zero => constructor <;> decide
  | succ k ih =>
    rw [Function.iterate_succ_apply']
    exact ⟨(Go.decr_incr _ ih.1 ih.2).1, (Go.decr_incr _ ih.1 ih.2).2.1⟩

/-- Further `Get` calls on a held key only step the count. -/
theorem shm_run_gets_held (i : String) (gets : List (Outcome × String)) (d : Driver)
    (w : World) (m : ActiveMount) :
    shm.run (d.store i m, w) (gets.map (fun g => (g.1, Call.Get i g.2))) =
      (gets.map (fun _ => Result.path m.path none),
       (d.store i ⟨Go.incr^[gets.length] m.count, m.path, m.mounted⟩, w)) := by
  induction gets generalizing m with
  | nil => simp [shm.run]
  | cons g rest ih =>
    have hstep : shm.step (d.store i m, w) g.1 (Call.Get i g.2) =
        (Result.path m.path none, (d.store i ⟨Go.incr m.count, m.path, m.mounted⟩, w)) := by
      have hrec : (d.store i m).active i = some m := by simp [Driver.store]
      simp [shm.step, shm.Get, hrec, Driver.store_store]
    simp only [List.map_cons, shm.run, hstep, ih, List.length_cons,
      Function.iterate_succ_apply]

/-- `Put` calls on a key without record do nothing. -/
theorem shm_run_puts_absent (i : String) (puts : List Outcome) (d : Driver) (w : World)
    (hnone : d.active i = none) :
    shm.run (d, w) (puts.map (fun o => (o, Call.Put i))) =
      (puts.map (fun _ => Result.error none), (d, w)) := by
  induction puts with
  | nil => simp [shm.run]
  | cons o rest ih =>
    have hstep : shm.step (d, w) o (Call.Put i) = (Result.error none, (d, w)) := by
      simp [shm.step, shm.Put, hnone]
    simp only [List.map_cons, shm.run, hstep, ih]

/-- After a first `Get` and `k` further ones, `k + 1` calls of `Put` whose
unmounts succeed return no error, unmount once and leave no record. -/
theorem shm_run_puts_all (i : String) (d : Driver) (p : String) (hnone : d.active i = none)
    (k : Nat) (puts : List Outcome) (w : World) (hlen : puts.length = k + 1)
    (hun : ∀ o ∈ puts, o.unmount = none) :
    shm.run (d.store i ⟨Go.incr^[k] 1, p, true⟩, w) (puts.map (fun o => (o, Call.Put i))) =
      (puts.map (fun _ => Result.error none), (d, (syscall.Unmount w Outcome.ok p 0).2)) := by
  have hrec : ∀ m, (d.store i m).active i = some m := by intro m; simp [Driver.store]
  have hlast : ∀ (c : Int) (o : Outcome), o.unmount = none → ¬ 0 < Go.decr c →
      shm.step (d.store i ⟨c, p, true⟩, w) o (Call.Put i) =
        (Result.error none, (d, (syscall.Unmount w Outcome.ok p 0).2)) := by
    intro c o ho hc
    simp [shm.step, shm.Put, hrec, hc, ho, syscall.Unmount, Outcome.ok, Driver.delete_store,
      Driver.delete_absent d i hnone]
  have hkeep : ∀ (c : Int) (o : Outcome), 0 < Go.decr c →
      shm.step (d.store i ⟨c, p, true⟩, w) o (Call.Put i) =
        (Result.error none, (d.store i ⟨Go.decr c, p, true⟩, w)) := by
    intro c o hc
    simp [shm.step, shm.Put, hrec, hc, Driver.store_store]
  induction k generalizing puts with
  | zero =>
    obtain ⟨o, rfl⟩ : ∃ o, puts = [o] := by
      match puts, hlen with
      | [o], _ => exact ⟨o, rfl⟩
    have ho : o.unmount = none := hun o (by simp)
    have hc : ¬ 0 < Go.decr (Go.incr^[0] 1) := by
      rw [Function.iterate_zero_apply, Go.decr_one]; decide
    simp only [List.map_cons, List.map_nil, shm.run, hlast _ o ho hc]
  | succ k ih =>
    obtain ⟨o, rest, rfl⟩ : ∃ o rest, puts = o :: rest := by
      match puts, hlen with
      | o :: rest, _ => exact ⟨o, rest, rfl⟩
    have ho : o.unmount = none := hun o (by simp)
    have hrest : rest.length = k + 1 := by simpa using hlen
    have hdecr : Go.decr (Go.incr^[k + 1] 1) = Go.incr^[k] 1 := by
      rw [Function.iterate_succ_apply']
      exact (Go.decr_incr _ (Go.iterate_incr_range k).1 (Go.iterate_incr_range k).2).2.2
    by_cases hpos : 0 < Go.incr^[k] 1
    · have hstep : shm.step (d.store i ⟨Go.incr^[k + 1] 1, p, true⟩, w) o (Call.Put i) =
          (Result.error none, (d.store i ⟨Go.incr^[k] 1, p, true⟩, w)) := by
        have := hkeep (Go.incr^[k + 1] 1) o (by rw [hdecr]; exact hpos)
        rw [hdecr] at this
        exact this
      simp only [List.map_cons, shm.run, hstep,
        ih rest hrest (fun x hx => hun x (List.mem_cons_of_mem _ hx))]
    · have hc : ¬ 0 < Go.decr (Go.incr^[k + 1] 1) := by rw [hdecr]; exact hpos
      simp only [List.map_cons, shm.run, hlast _ o ho hc, shm_run_puts_absent i rest d _ hnone]

/-- C1: in the `shm` driver, from a state with no record for `i` and the
directory of `i` present, `N ≥ 1` calls `Get(i, _)` (any labels) followed by
`N` calls `Put(i)`, with every mount and unmount succeeding, return the
directory of `i` without error from every `Get` and no error from every `Put`;
the calls issued are one `Stat`, exactly one `Mount` and exactly one `Unmount`
of that directory; the mount table and the disk end as they began, and the
driver ends as it began, with no record for `i`. -/
theorem Get_Put_paired (d : Driver) (w : World) (i : String) (N : Nat)
    (gets : List (Outcome × String)) (puts : List Outcome)
    (hN : 1 ≤ N) (hgets : gets.length = N) (hputs : puts.length = N)
    (hnone : d.active i = none) (hdir : w.dirs (shm.dir d i) = true)
    (hmount : ∀ g ∈ gets, g.1.mount = none) (humount : ∀ p ∈ puts, p.unmount = none) :
    (shm.run (d, w) (gets.map (fun g => (g.1, Call.Get i g.2)) ++
        puts.map (fun p => (p, Call.Put i)))).1 =
      List.replicate N (Result.path (shm.dir d i) none) ++
        List.replicate N (Result.error none) ∧
    (shm.run (d, w) (gets.map (fun g => (g.1, Call.Get i g.2)) ++
        puts.map (fun p => (p, Call.Put i)))).2.2.calls =
      w.calls ++
        [Syscall.stat (shm.dir d i),
         Syscall.mount "tmpfs" (shm.dir d i) "tmpfs"
           (syscall.MS_NODEV ||| syscall.MS_NOSUID ||| syscall.MS_NOEXEC)
           "mode=1777,size=65536k",
         Syscall.unmount (shm.dir d i) 0] ∧
    (shm.run (d, w) (gets.map (fun g => (g.1, Call.Get i g.2)) ++
        puts.map (fun p => (p, Call.Put i)))).2.2.mounts = w.mounts ∧
    (shm.run (d, w) (gets.map (fun g => (g.1, Call.Get i g.2)) ++
        puts.map (fun p => (p, Call.Put i)))).2.2.dirs = w.dirs ∧
    (shm.run (d, w) (gets.map (fun g => (g.1, Call.Get i g.2)) ++
        puts.map (fun p => (p, Call.Put i)))).2.1 = d ∧
    (shm.run (d, w) (gets.map (fun g => (g.1, Call.Get i g.2)) ++
        puts.map (fun p => (p, Call.Put i)))).2.1.active i = none := by
  -- the first `Get` mounts, and one of the `Put` calls unmounts
  obtain ⟨g, gs, rfl⟩ : ∃ g gs, gets = g :: gs := by
    cases gets with
    | nil => simp at hgets; omega
    | cons g gs => exact ⟨g, gs, rfl⟩
  have hg : g.1.mount = none := hmount g (by simp)
  have hNeq : N = gs.length + 1 := by
    simp only [List.length_cons] at hgets
    omega
  subst hNeq
  -- the first `Get`
  have hfirst : shm.step (d, w) g.1 (Call.Get i g.2) =
      (Result.path (shm.dir d i) none,
       (d.store i ⟨1, shm.dir d i, true⟩, (syscall.Mount (os.Stat w (shm.dir d i)).2 Outcome.ok
          "tmpfs" (shm.dir d i) "tmpfs"
          (syscall.MS_NODEV ||| syscall.MS_NOSUID ||| syscall.MS_NOEXEC)
          "mode=1777,size=65536k").2)) := by
    simp [shm.step, shm.Get, hnone, hdir, hg, os.Stat, syscall.Mount, Outcome.ok]
  -- the other `Get` calls
  have hmore : ∀ w1 : World,
      shm.run (d.store i ⟨1, shm.dir d i, true⟩, w1)
          (gs.map (fun g => (g.1, Call.Get i g.2))) =
        (gs.map (fun _ => Result.path (shm.dir d i) none),
         (d.store i ⟨Go.incr^[gs.length] 1, shm.dir d i, true⟩, w1)) :=
    fun w1 => shm_run_gets_held i gs d w1 ⟨1, shm.dir d i, true⟩
  -- the `Put` calls
  have hputs2 := fun w1 : World =>
    shm_run_puts_all i d (shm.dir d i) hnone gs.length puts w1 hputs humount
  have hcs : (g :: gs).map (fun g => (g.1, Call.Get i g.2)) ++
        puts.map (fun p => (p, Call.Put i)) =
      (g.1, Call.Get i g.2) :: (gs.map (fun g => (g.1, Call.Get i g.2)) ++
        puts.map (fun p => (p, Call.Put i))) := by
    simp
  have hrun : shm.run (d, w) ((g.1, Call.Get i g.2) ::
        (gs.map (fun g => (g.1, Call.Get i g.2)) ++ puts.map (fun p => (p, Call.Put i)))) =
      (Result.path (shm.dir d i) none ::
        (gs.map (fun _ => Result.path (shm.dir d i) none) ++
          puts.map (fun _ => Result.error none)),
       (d, (syscall.Unmount (syscall.Mount (os.Stat w (shm.dir d i)).2 Outcome.ok
          "tmpfs" (shm.dir d i) "tmpfs"
          (syscall.MS_NODEV ||| syscall.MS_NOSUID ||| syscall.MS_NOEXEC)
          "mode=1777,size=65536k").2 Outcome.ok (shm.dir d i) 0).2)) := by
    rw [shm.run]
    simp only [hfirst]
    rw [shm_run_append, hmore]
    simp only []
    rw [hputs2]
  rw [hcs, hrun]
  refine ⟨?_, ?_, ?_, ?_, rfl, hnone⟩
  · simp only [List.map_const', hputs, List.length_cons]
    simp [List.replicate_succ]
  · simp [syscall.Unmount, syscall.Mount, os.Stat, Outcome.ok]
  · simp [syscall.Unmount, syscall.Mount, os.Stat, Outcome.ok]
  · simp only [syscall.Unmount, syscall.Mount, os.Stat, Outcome.ok]
    funext q
    cases hq : path.inside (shm.dir d i) q <;> simp [hq]

/-- Witness of C1: root `/state`, identifier `L1`, `N = 2`. -/
theorem Get_Put_paired_witness :
    (shm.Init "/state" []).active "L1" = none ∧
    exCreated.dirs (shm.dir (shm.Init "/state" []) "L1") = true ∧
    (shm.run (shm.Init "/state" [], exCreated)
        [(Outcome.ok, Call.Get "L1" ""), (Outcome.ok, Call.Get "L1" ""),
         (Outcome.ok, Call.Put "L1"), (Outcome.ok, Call.Put "L1")]).1 =
      [Result.path "/state/dir/L1" none, Result.path "/state/dir/L1" none,
       Result.error none, Result.error none] ∧
    (shm.run (shm.Init "/state" [], exCreated)
        [(Outcome.ok, Call.Get "L1" ""), (Outcome.ok, Call.Get "L1" ""),
         (Outcome.ok, Call.Put "L1"), (Outcome.ok, Call.Put "L1")]).2.2.calls =
      [Syscall.stat "/state/dir/L1",
       Syscall.mount "tmpfs" "/state/dir/L1" "tmpfs" 14 "mode=1777,size=65536k",
       Syscall.unmount "/state/dir/L1" 0] ∧
    (shm.run (shm.Init "/state" [], exCreated)
        [(Outcome.ok, Call.Get "L1" ""), (Outcome.ok, Call.Get "L1" ""),
         (Outcome.ok, Call.Put "L1"), (Outcome.ok, Call.Put "L1")]).2.1.active "L1" = none :=
  ⟨rfl, by decide,
   ((Get_Put_paired (shm.Init "/state" []) exCreated "L1" 2
      [(Outcome.ok, ""), (Outcome.ok, "")] [Outcome.ok, Outcome.ok] (by decide) rfl rfl rfl
      (by decide) (by decide) (by decide)).1).trans (by decide),
   ((Get_Put_paired (shm.Init "/state" []) exCreated "L1" 2
      [(Outcome.ok, ""), (Outcome.ok, "")] [Outcome.ok, Outcome.ok] (by decide) rfl rfl rfl
      (by decide) (by decide) (by decide)).2.1).trans (by decide),
   (Get_Put_paired (shm.Init "/state" []) exCreated "L1" 2
      [(Outcome.ok, ""), (Outcome.ok, "")] [Outcome.ok, Outcome.ok] (by decide) rfl rfl rfl
      (by decide) (by decide) (by decide)).2.2.2.2.2⟩

/-! ## The reference count along a run of the `mqueue` driver -/

theorem mqueue_step_driver (s : Driver × World) (o : Outcome) (c : Call)
    (hget : ∀ id l, c ≠ Call.Get id l) (hput : ∀ id, c ≠ Call.Put id) :
    (mqueue.step s o c).2.1 = s.1 := by
  cases c with
  | Create id parent =>
    by_cases hp : parent = "" <;> cases hdir : s.2.dirs (mqueue.dir s.1 id) <;>
      cases ho : o.mkdirAll <;> simp [mqueue.step, mqueue.Create, os.MkdirAll, hp, hdir, ho]
  | Remove id =>
    simp only [mqueue.step, mqueue.Remove, os.Stat]
    cases s.2.dirs (mqueue.dir s.1 id) <;> rfl
  | Get id l => exact absurd rfl (hget id l)
  | Put id => exact absurd rfl (hput id)
  | Exists id => rfl
  | Status => rfl
  | Cleanup => rfl

theorem mqueue_Get_cases (d : Driver) (w : World) (o : Outcome) (id l : String) :
    (∃ m, d.active id = some m ∧ (mqueue.Get d w o id l).1.2 = none ∧
      (mqueue.Get d w o id l).2.1 = d.store id ⟨Go.incr m.count, m.path, m.mounted⟩) ∨
    (d.active id = none ∧ (mqueue.Get d w o id l).1.2 = none ∧
      (mqueue.Get d w o id l).2.1 = d.store id ⟨1, mqueue.dir d id, true⟩) ∨
    (d.active id = none ∧ (mqueue.Get d w o id l).1.2 ≠ none ∧
      (mqueue.Get d w o id l).2.1 = d) := by
  cases h : d.active id with
  | some m => exact Or.inl ⟨m, rfl, by simp [mqueue.Get, h], by simp [mqueue.Get, h]⟩
  | none =>
    right
    cases hd : w.dirs (mqueue.dir d id) with
    | false => exact Or.inr ⟨rfl, by simp [mqueue.Get, h, hd, os.Stat],
        by simp [mqueue.Get, h, hd, os.Stat]⟩
    | true =>
      cases hm : o.mount with
      | none => exact Or.inl ⟨rfl, by simp [mqueue.Get, h, hd, hm, os.Stat, syscall.Mount],
          by simp [mqueue.Get, h, hd, hm, os.Stat, syscall.Mount]⟩
      | some e => exact Or.inr ⟨rfl, by simp [mqueue.Get, h, hd, hm, os.Stat, syscall.Mount],
          by simp [mqueue.Get, h, hd, hm, os.Stat, syscall.Mount]⟩

theorem mqueue_Put_cases (d : Driver) (w : World) (o : Outcome) (id : String) :
    (d.active id = none ∧ (mqueue.Put d w o id).2.1 = d) ∨
    (∃ m, d.active id = some m ∧ 0 < Go.decr m.count ∧
      (mqueue.Put d w o id).2.1 = d.store id ⟨Go.decr m.count, m.path, m.mounted⟩) ∨
    (∃ m, d.active id = some m ∧ Go.decr m.count ≤ 0 ∧
      (mqueue.Put d w o id).2.1 = d.delete id) := by
  cases h : d.active id with
  | none => exact Or.inl ⟨rfl, by simp [mqueue.Put, h]⟩
  | some m =>
    right
    by_cases hc : 0 < Go.decr m.count
    · exact Or.inl ⟨m, rfl, hc, by simp [mqueue.Put, h, hc]⟩
    · refine Or.inr ⟨m, rfl, by omega, ?_⟩
      cases hm : m.mounted <;> simp [mqueue.Put, h, hc, hm]

theorem mqueue_step_counts_within (s : Driver × World) (o : Outcome) (c : Call) (n : Int)
    (h0 : 0 ≤ n) (hn : n < Go.maxInt) (h : CountsWithin s.1 n) :
    CountsWithin (mqueue.step s o c).2.1 (n + 1) := by
  have hweak : CountsWithin s.1 (n + 1) := by
    intro k m hk
    have := h k m hk
    omega
  by_cases hget : ∃ id l, c = Call.Get id l
  · obtain ⟨id, l, rfl⟩ := hget
    intro k m hk
    simp only [mqueue.step] at hk
    rcases mqueue_Get_cases s.1 s.2 o id l with ⟨m0, h0m, _, hd⟩ | ⟨_, _, hd⟩ | ⟨_, _, hd⟩
    · rw [hd] at hk
      by_cases hkid : k = id
      · subst hkid
        have hb := h k m0 h0m
        have hincr : Go.incr m0.count = m0.count + 1 := Go.incr_of_ne_max _ (by omega)
        simp [Driver.store] at hk
        subst hk
        simp only
        omega
      · simp [Driver.store, hkid] at hk
        exact hweak k m hk
    · rw [hd] at hk
      by_cases hkid : k = id
      · simp [Driver.store, hkid] at hk
        subst hk
        simp only
        omega
      · simp [Driver.store, hkid] at hk
        exact hweak k m hk
    · rw [hd] at hk
      exact hweak k m hk
  by_cases hput : ∃ id, c = Call.Put id
  · obtain ⟨id, rfl⟩ := hput
    intro k m hk
    simp only [mqueue.step] at hk
    rcases mqueue_Put_cases s.1 s.2 o id with ⟨_, hd⟩ | ⟨m0, h0m, hpos, hd⟩ | ⟨m0, h0m, _, hd⟩
    · rw [hd] at hk
      exact hweak k m hk
    · rw [hd] at hk
      by_cases hkid : k = id
      · subst hkid
        have hb := h k m0 h0m
        have hdecr : Go.decr m0.count = m0.count - 1 := Go.decr_of_pos _ hb.1
        simp [Driver.store] at hk
        subst hk
        simp only
        omega
      · simp [Driver.store, hkid] at hk
        exact hweak k m hk
    · rw [hd] at hk
      by_cases hkid : k = id
      · simp [Driver.delete, hkid] at hk
      · simp [Driver.delete, hkid] at hk
        exact hweak k m hk
  · have hd := mqueue_step_driver s o c (fun id l hc => hget ⟨id, l, hc⟩)
      (fun id hc => hput ⟨id, hc⟩)
    rw [hd]
    exact hweak

theorem mqueue_run_counts_within (cs : List (Outcome × Call)) (s : Driver × World) (n : Int)
    (h0 : 0 ≤ n) (hn : n + cs.length ≤ Go.maxInt) (h : CountsWithin s.1 n) :
    CountsWithin (mqueue.run s cs).2.1 (n + cs.length) := by
  induction cs generalizing s n with
  | nil => simpa [mqueue.run] using h
  | cons oc rest ih =>
    simp only [List.length_cons, Nat.cast_add, Nat.cast_one] at hn ⊢
    have hstep := mqueue_step_counts_within s oc.1 oc.2 n h0 (by omega) h
    have := ih (mqueue.step s oc.1 oc.2).2 (n + 1) (by omega) (by omega) hstep
    simp only [mqueue.run]
    have hc : n + ((rest.length : Int) + 1) = n + 1 + (rest.length : Int) := by omega
    rw [hc]
    exact this

theorem CountIs.of_active_eq {id : String} {d d2 : Driver} {b : Int}
    (h : d2.active id = d.active id) (hb : CountIs id d b) : CountIs id d2 b := by
  unfold CountIs at *
  rw [h]
  exact hb

theorem Call.delta_Get_failed (id k l p : String) (e : Option Error) (he : e ≠ none) :
    Call.delta id (Call.Get k l) (Result.path p e) = 0 := by
  cases e with
  | none => exact absurd rfl he
  | some x => rfl

theorem mqueue_step_count_is (id : String) (s : Driver × World) (o : Outcome) (c : Call)
    (b n : Int) (hn : n < Go.maxInt) (hpos : CountsWithin s.1 n) (hb : CountIs id s.1 b)
    (hnonneg : 0 ≤ b + Call.delta id c (mqueue.step s o c).1) :
    CountIs id (mqueue.step s o c).2.1 (b + Call.delta id c (mqueue.step s o c).1) := by
  by_cases hget : ∃ k l, c = Call.Get k l
  · obtain ⟨k, l, rfl⟩ := hget
    simp only [mqueue.step] at hnonneg ⊢
    rcases mqueue_Get_cases s.1 s.2 o k l with ⟨m0, h0, he, hd⟩ | ⟨h0, he, hd⟩ | ⟨h0, he, hd⟩
    · rw [hd, he]
      by_cases hk : k = id
      · subst hk
        have hm0 := hb.1 m0 h0
        have hw := hpos k m0 h0
        have hincr : Go.incr b = b + 1 := hm0 ▸ Go.incr_of_ne_max m0.count (by omega)
        constructor
        · intro m hm
          simp [Driver.store] at hm
          subst hm
          simp [Call.delta, hm0, hincr]
        · intro hn
          simp [Driver.store] at hn
      · have h1 : Call.delta id (Call.Get k l) (Result.path (mqueue.Get s.1 s.2 o k l).1.1 none)
            = 0 := by simp [Call.delta, hk]
        rw [h1, add_zero]
        refine CountIs.of_active_eq ?_ hb
        have hk2 : id ≠ k := fun h => hk h.symm
        simp [Driver.store, hk2]
    · rw [hd, he]
      by_cases hk : k = id
      · subst hk
        have hb0 := hb.2 h0
        constructor
        · intro m hm
          simp [Driver.store] at hm
          subst hm
          simp [Call.delta, hb0]
        · intro hn
          simp [Driver.store] at hn
      · have h1 : Call.delta id (Call.Get k l) (Result.path (mqueue.Get s.1 s.2 o k l).1.1 none)
            = 0 := by simp [Call.delta, hk]
        rw [h1, add_zero]
        refine CountIs.of_active_eq ?_ hb
        have hk2 : id ≠ k := fun h => hk h.symm
        simp [Driver.store, hk2]
    · rw [hd, Call.delta_Get_failed id k l _ _ he, add_zero]
      exact hb
  by_cases hput : ∃ k, c = Call.Put k
  · obtain ⟨k, rfl⟩ := hput
    simp only [mqueue.step] at hnonneg ⊢
    by_cases hk : k = id
    · subst hk
      have h1 : ∀ r, Call.delta k (Call.Put k) r = -1 := by intro r; simp [Call.delta]
      rw [h1] at hnonneg ⊢
      rcases mqueue_Put_cases s.1 s.2 o k with ⟨h0, _⟩ | ⟨m0, h0, _, hd⟩ | ⟨m0, h0, hle, hd⟩
      · have := hb.2 h0
        omega
      · rw [hd]
        have hm0 := hb.1 m0 h0
        have hdecr : Go.decr m0.count = m0.count - 1 := Go.decr_of_pos _ (hpos k m0 h0).1
        constructor
        · intro m hm
          simp [Driver.store] at hm
          subst hm
          simp only
          omega
        · intro hn
          simp [Driver.store] at hn
      · rw [hd]
        have hm0 := hb.1 m0 h0
        have hge := (hpos k m0 h0).1
        have hdecr : Go.decr m0.count = m0.count - 1 := Go.decr_of_pos _ hge
        constructor
        · intro m hm
          simp [Driver.delete] at hm
        · intro _
          omega
    · have h1 : ∀ r, Call.delta id (Call.Put k) r = 0 := by intro r; simp [Call.delta, hk]
      rw [h1, add_zero]
      refine CountIs.of_active_eq ?_ hb
      have hk2 : id ≠ k := fun h => hk h.symm
      rcases mqueue_Put_cases s.1 s.2 o k with ⟨_, hd⟩ | ⟨m0, _, _, hd⟩ | ⟨m0, _, _, hd⟩
      · rw [hd]
      · rw [hd]; simp [Driver.store, hk2]
      · rw [hd]; simp [Driver.delete, hk2]
  · have hd := mqueue_step_driver s o c (fun k l hc => hget ⟨k, l, hc⟩)
      (fun k hc => hput ⟨k, hc⟩)
    have h1 : Call.delta id c (mqueue.step s o c).1 = 0 := by
      cases c with
      | Get k l => exact absurd ⟨k, l, rfl⟩ hget
      | Put k => exact absurd ⟨k, rfl⟩ hput
      | Create k parent => rfl
      | Remove k => rfl
      | Exists k => rfl
      | Status => rfl
      | Cleanup => rfl
    rw [hd, h1, add_zero]
    exact hb

theorem mqueue_run_count_is (id : String) (cs : List (Outcome × Call)) (s : Driver × World)
    (b n : Int) (h0 : 0 ≤ n) (hn : n + cs.length ≤ Go.maxInt) (hpos : CountsWithin s.1 n)
    (hb : CountIs id s.1 b)
    (hpaired : ∀ n, n ≤ cs.length → 0 ≤ b + mqueue.outstanding id s (cs.take n)) :
    CountIs id (mqueue.run s cs).2.1 (b + mqueue.outstanding id s cs) := by
  induction cs generalizing s b n with
  | nil => simpa [mqueue.run, mqueue.outstanding] using hb
  | cons oc rest ih =>
    simp only [List.length_cons, Nat.cast_add, Nat.cast_one] at hn
    have h1 : 0 ≤ b + Call.delta id oc.2 (mqueue.step s oc.1 oc.2).1 := by
      have := hpaired 1 (by simp)
      simpa [mqueue.outstanding] using this
    have hstep := mqueue_step_count_is id s oc.1 oc.2 b n (by omega) hpos hb h1
    have hpos2 := mqueue_step_counts_within s oc.1 oc.2 n h0 (by omega) hpos
    have hrest : ∀ n, n ≤ rest.length →
        0 ≤ b + Call.delta id oc.2 (mqueue.step s oc.1 oc.2).1 +
          mqueue.outstanding id (mqueue.step s oc.1 oc.2).2 (rest.take n) := by
      intro n hn
      have := hpaired (n + 1) (by simp; omega)
      simp only [List.take_succ_cons, mqueue.outstanding] at this
      omega
    have := ih (mqueue.step s oc.1 oc.2).2 _ (n + 1) (by omega) (by omega) hpos2 hstep hrest
    simp only [mqueue.run, mqueue.outstanding]
    rw [← add_assoc]
    exact this

theorem Go.iterate_incr_small (n : Nat) (c : Int) (h : c + n ≤ Go.maxInt) :
    Go.incr^[n] c = c + n := by
  induction n generalizing c with
  | zero => simp
  | succ n ih =>
    simp only [Nat.cast_add, Nat.cast_one] at h
    rw [Function.iterate_succ_apply, Go.incr_of_ne_max c (by omega), ih (c + 1) (by omega)]
    simp only [Nat.cast_add, Nat.cast_one]
    omega

theorem Go.iterate_incr_wraps (n : Nat) (h : 1 + (n : Int) = Go.maxInt) :
    Go.incr^[n + 1] 1 = Go.minInt := by
  rw [Function.iterate_succ_apply', Go.iterate_incr_small n 1 (by omega), h, Go.incr_max]

/-- As many calls of `Get` as there are values of a positive `int`, and one
more, bring the count to the smallest `int`. -/
theorem mqueue_run_gets_wrap (n : Nat) (h : (n : Int) = Go.maxInt + 1)
    (run : Nat → Option ActiveMount)
    (hrun : ∀ k, run (k + 1) = some ⟨Go.incr^[k] 1, "/state/dir/L1", true⟩) :
    run n = some ⟨Go.minInt, "/state/dir/L1", true⟩ := by
  obtain ⟨k, rfl⟩ : ∃ k, n = k + 1 := by
    cases n with
    | zero => simp [Go.maxInt] at h
    | succ k => exact ⟨k, rfl⟩
  obtain ⟨j, rfl⟩ : ∃ j, k = j + 1 := by
    cases k with
    | zero => simp [Go.maxInt] at h
    | succ j => exact ⟨j, rfl⟩
  rw [hrun, Go.iterate_incr_wraps j (by push_cast at h; omega)]

/-- A first `Get` of `L1` and `n` further ones step the count `n` times. -/
theorem mqueue_run_gets_from_init (n : Nat) :
    (mqueue.run (mqueue.Init "/state" [], exCreated)
        (List.replicate (n + 1) (Outcome.ok, Call.Get "L1" ""))).2.1.active "L1" =
      some ⟨Go.incr^[n] 1, "/state/dir/L1", true⟩ := by
  have hheld : ∀ (k : Nat) (d : Driver) (w : World) (m : ActiveMount),
      (mqueue.run (d.store "L1" m, w)
          (List.replicate k (Outcome.ok, Call.Get "L1" ""))).2.1 =
        d.store "L1" ⟨Go.incr^[k] m.count, m.path, m.mounted⟩ := by
    intro k
    induction k with
    | zero => intro d w m; simp [mqueue.run]
    | succ k ih =>
      intro d w m
      have hrec : (d.store "L1" m).active "L1" = some m := by simp [Driver.store]
      have hstep : mqueue.step (d.store "L1" m, w) Outcome.ok (Call.Get "L1" "") =
          (Result.path m.path none, (d.store "L1" ⟨Go.incr m.count, m.path, m.mounted⟩, w)) := by
        simp [mqueue.step, mqueue.Get, hrec, Driver.store_store]
      simp only [List.replicate_succ, mqueue.run, hstep, ih, Function.iterate_succ_apply]
  have hdir : exCreated.dirs (mqueue.dir (mqueue.Init "/state" []) "L1") = true := by decide
  have hp : mqueue.dir (mqueue.Init "/state" []) "L1" = "/state/dir/L1" := by decide
  have hgen : ∀ (d : Driver) (w : World), d.active "L1" = none →
      w.dirs (mqueue.dir d "L1") = true →
      (mqueue.step (d, w) Outcome.ok (Call.Get "L1" "")).2.1 =
        d.store "L1" ⟨1, mqueue.dir d "L1", true⟩ := by
    intro d w hnone hd
    simp [mqueue.step, mqueue.Get, hnone, hd, os.Stat, syscall.Mount, Outcome.ok]
  have hfirst : (mqueue.step (mqueue.Init "/state" [], exCreated) Outcome.ok
        (Call.Get "L1" "")).2.1 =
      (mqueue.Init "/state" []).store "L1" ⟨1, "/state/dir/L1", true⟩ := by
    rw [← hp]
    exact hgen _ _ rfl hdir
  rw [List.replicate_succ, mqueue.run]
  have hsplit : (mqueue.step (mqueue.Init "/state" [], exCreated) Outcome.ok
        (Call.Get "L1" "")).2 =
      ((mqueue.Init "/state" []).store "L1" ⟨1, "/state/dir/L1", true⟩,
       (mqueue.step (mqueue.Init "/state" [], exCreated) Outcome.ok (Call.Get "L1" "")).2.2) :=
    Prod.ext hfirst rfl
  simp only []
  rw [hsplit, hheld]
  simp [Driver.store]

/-- C9 fails after `2^63` calls of `Get`: on the freshly initialised `mqueue`
driver with the directory of `L1` present, `2^63` successful `Get("L1", _)`
calls leave a record whose count is the smallest `int`, which is negative. -/
theorem refcount_negative_after_wrap :
    (mqueue.run (mqueue.Init "/state" [], exCreated)
        (List.replicate 9223372036854775808 (Outcome.ok, Call.Get "L1" ""))).2.1.active "L1" =
      some ⟨Go.minInt, "/state/dir/L1", true⟩ ∧
    ¬ (1 ≤ Go.minInt) := by
  constructor
  · exact mqueue_run_gets_wrap 9223372036854775808 (by unfold Go.maxInt; norm_num)
      (fun n => (mqueue.run (mqueue.Init "/state" [], exCreated)
        (List.replicate n (Outcome.ok, Call.Get "L1" ""))).2.1.active "L1")
      mqueue_run_gets_from_init
  · unfold Go.minInt; norm_num

/-- C9 as amended: in the `mqueue` driver, after any sequence of fewer than
`2^63` calls of `Create`, `Remove`, `Exists`, `Get`, `Put`, `Status` and
`Cleanup` on the freshly initialised driver, in any world and with any answers
of the environment, every record of the registry has a count of at least one;
and for every identifier whose releases never exceed its prior acquires along
the sequence, the count of its record is at most the number of its outstanding
acquires (successful `Get` calls minus `Put` calls). -/
theorem refcount_invariant (home : String) (options : List String) (w : World)
    (cs : List (Outcome × Call)) (hlen : (cs.length : Int) ≤ Go.maxInt) :
    (∀ id m, (mqueue.run (mqueue.Init home options, w) cs).2.1.active id = some m →
      1 ≤ m.count) ∧
    (∀ id, mqueue.paired id (mqueue.Init home options, w) cs →
      ∀ m, (mqueue.run (mqueue.Init home options, w) cs).2.1.active id = some m →
        m.count ≤ mqueue.outstanding id (mqueue.Init home options, w) cs) := by
  have hpos : CountsWithin (mqueue.Init home options, w).1 0 := by
    intro id m hm
    simp [mqueue.Init] at hm
  constructor
  · intro id m hm
    exact (mqueue_run_counts_within cs _ 0 (le_refl 0) (by omega) hpos id m hm).1
  · intro id hpaired m hm
    have hb : CountIs id (mqueue.Init home options, w).1 0 :=
      ⟨fun m hm => by simp [mqueue.Init] at hm, fun _ => rfl⟩
    have := mqueue_run_count_is id cs _ 0 0 (le_refl 0) (by omega) hpos hb
      (by simpa [mqueue.paired] using hpaired)
    have heq := this.1 m hm
    omega

/-- Witness of the amended C9: after `Create`, `Get`, `Get`, `Put` of `L1` the
record of `L1` has count 1 and one acquire is outstanding. -/
theorem refcount_invariant_witness :
    (exCalls.length : Int) ≤ Go.maxInt ∧
    mqueue.paired "L1" (mqueue.Init "/state" [], exBare) exCalls ∧
    (mqueue.run (mqueue.Init "/state" [], exBare) exCalls).2.1.active "L1" =
      some ⟨1, "/state/dir/L1", true⟩ ∧
    mqueue.outstanding "L1" (mqueue.Init "/state" [], exBare) exCalls = 1 ∧
    (1 : Int) ≤ mqueue.outstanding "L1" (mqueue.Init "/state" [], exBare) exCalls :=
  ⟨by decide, by unfold mqueue.paired; decide, by decide, by decide,
   (refcount_invariant "/state" [] exBare exCalls (by decide)).2 "L1"
     (by unfold mqueue.paired; decide) ⟨1, "/state/dir/L1", true⟩ (by decide)⟩

/-! ## The directory of an identifier -/

/-- C10 at the identifier `..`: in both drivers rooted at `/state` the directory
of `..` is `/state` itself, which is not `/state/dir` nor below it, so that
`Remove("..")` deletes `/state` and `Get("..", _)` mounts on `/state`; the
identifier `../../etc` does resolve to `/state/dir/etc`. -/
theorem dir_of_dotdot :
    shm.dir (shm.Init "/state" []) ".." = "/state" ∧
    mqueue.dir (mqueue.Init "/state" []) ".." = "/state" ∧
    path.below "/state/dir" (shm.dir (shm.Init "/state" []) "..") = false ∧
    path.below "/state/dir" (mqueue.dir (mqueue.Init "/state" []) "..") = false ∧
    (shm.Remove (shm.Init "/state" []) exRoot Outcome.ok "..").2.2.calls =
      [Syscall.stat "/state", Syscall.removeAll "/state"] ∧
    (mqueue.Get (mqueue.Init "/state" []) exRoot Outcome.ok ".." "").2.2.mounts = ["/state"] ∧
    shm.dir (shm.Init "/state" []) "../../etc" = "/state/dir/etc" ∧
    mqueue.dir (mqueue.Init "/state" []) "../../etc" = "/state/dir/etc" := by
  refine ⟨?_, ?_, ?_, ?_, ?_, ?_, ?_, ?_⟩ <;> decide

/-! ## The directory store: `Create`, `Remove`, `Exists` -/

/-- C13: in both drivers `Create` with a non-empty parent returns the error
of the variant and hands back the driver and the world exactly as they were,
so that neither the disk nor the registry changes and no call is issued; if
the directory of `i` was absent before, `Exists(i)` is still false after. -/
theorem Create_with_parent (d : Driver) (w : World) (o : Outcome) (i p : String)
    (hp : p ≠ "") :
    (shm.Create d w o i p = (some "shm driver doesn't support parent", d, w) ∧
      (w.dirs (shm.dir d i) = false →
        (shm.Exists (shm.Create d w o i p).2.1 (shm.Create d w o i p).2.2 i).1 = false)) ∧
    (mqueue.Create d w o i p = (some "mqueue driver doesn't support parent", d, w) ∧
      (w.dirs (mqueue.dir d i) = false →
        (mqueue.Exists (mqueue.Create d w o i p).2.1 (mqueue.Create d w o i p).2.2 i).1 =
          false)) := by
  have hs : shm.Create d w o i p = (some "shm driver doesn't support parent", d, w) := by
    simp [shm.Create, hp]
  have hq : mqueue.Create d w o i p = (some "mqueue driver doesn't support parent", d, w) := by
    simp [mqueue.Create, hp]
  refine ⟨⟨hs, ?_⟩, ⟨hq, ?_⟩⟩
  · intro hdir
    rw [hs]
    simp [shm.Exists, os.Stat, hdir]
  · intro hdir
    rw [hq]
    simp [mqueue.Exists, os.Stat, hdir]

/-- Witness of C13: `Create("L1", "parent")` on an empty disk. -/
theorem Create_with_parent_witness :
    ("parent" : String) ≠ "" ∧
    shm.Create (shm.Init "/state" []) exBare Outcome.ok "L1" "parent" =
      (some "shm driver doesn't support parent", shm.Init "/state" [], exBare) ∧
    (mqueue.Exists (mqueue.Create (mqueue.Init "/state" []) exBare Outcome.ok "L1" "parent").2.1
      (mqueue.Create (mqueue.Init "/state" []) exBare Outcome.ok "L1" "parent").2.2 "L1").1 =
        false :=
  ⟨by decide,
   (Create_with_parent (shm.Init "/state" []) exBare Outcome.ok "L1" "parent"
      (by decide)).1.1,
   (Create_with_parent (mqueue.Init "/state" []) exBare Outcome.ok "L1" "parent"
      (by decide)).2.2 (by decide)⟩

/-- C14: in the `mqueue` driver, when the recursive directory creation
succeeds, `Create(i, "")` returns no error, keeps the driver and every
directory already found, and `Exists(i)` is true afterwards; when the directory
of `i` already exists, `Create(i, "")` returns no error whatever the
environment would answer to a creation, changes neither the driver, the disk
nor the mount table, and `Exists(i)` is true afterwards; and after a
`Create(i, "")` that returned no error, a second `Create(i, "")` returns no
error whatever the environment would answer and leaves the driver, the disk and
the mount table as the first call left them. -/
theorem Create_then_Exists (d : Driver) (w : World) (o : Outcome) (i : String) :
    (o.mkdirAll = none →
      (mqueue.Create d w o i "").1 = none ∧
      (mqueue.Create d w o i "").2.1 = d ∧
      (mqueue.Exists (mqueue.Create d w o i "").2.1 (mqueue.Create d w o i "").2.2 i).1 =
        true ∧
      (∀ q, w.dirs q = true → (mqueue.Create d w o i "").2.2.dirs q = true)) ∧
    (w.dirs (mqueue.dir d i) = true →
      (mqueue.Create d w o i "").1 = none ∧
      (mqueue.Create d w o i "").2.1 = d ∧
      (mqueue.Create d w o i "").2.2.dirs = w.dirs ∧
      (mqueue.Create d w o i "").2.2.mounts = w.mounts ∧
      (mqueue.Exists (mqueue.Create d w o i "").2.1 (mqueue.Create d w o i "").2.2 i).1 =
        true) ∧
    ((mqueue.Create d w o i "").1 = none → ∀ o2 : Outcome,
      (mqueue.Create (mqueue.Create d w o i "").2.1 (mqueue.Create d w o i "").2.2 o2 i "").1 =
        none ∧
      (mqueue.Create (mqueue.Create d w o i "").2.1 (mqueue.Create d w o i "").2.2 o2 i "").2.1 =
        (mqueue.Create d w o i "").2.1 ∧
      (mqueue.Create (mqueue.Create d w o i "").2.1 (mqueue.Create d w o i "").2.2 o2 i
          "").2.2.dirs = (mqueue.Create d w o i "").2.2.dirs ∧
      (mqueue.Create (mqueue.Create d w o i "").2.1 (mqueue.Create d w o i "").2.2 o2 i
          "").2.2.mounts = (mqueue.Create d w o i "").2.2.mounts) := by
  have hself : path.below (mqueue.dir d i) (mqueue.dir d i) = true := by simp [path.below]
  refine ⟨?_, ?_, ?_⟩
  · intro h
    cases hdir : w.dirs (mqueue.dir d i) with
    | true =>
      refine ⟨?_, ?_, ?_, ?_⟩ <;>
        simp [mqueue.Create, mqueue.Exists, os.MkdirAll, os.Stat, hdir]
    | false =>
      refine ⟨?_, ?_, ?_, ?_⟩
      · simp [mqueue.Create, os.MkdirAll, h, hdir]
      · simp [mqueue.Create, os.MkdirAll, h, hdir]
      · simp [mqueue.Create, mqueue.Exists, os.MkdirAll, os.Stat, h, hdir, hself]
      · intro q hq
        simp [mqueue.Create, os.MkdirAll, h, hdir, hq]
  · intro hdir
    refine ⟨?_, ?_, ?_, ?_, ?_⟩ <;>
      simp [mqueue.Create, mqueue.Exists, os.MkdirAll, os.Stat, hdir]
  · intro hok o2
    cases hdir : w.dirs (mqueue.dir d i) with
    | true =>
      refine ⟨?_, ?_, ?_, ?_⟩ <;> simp [mqueue.Create, os.MkdirAll, hdir]
    | false =>
      cases ho : o.mkdirAll with
      | some e => simp [mqueue.Create, os.MkdirAll, hdir, ho] at hok
      | none =>
        refine ⟨?_, ?_, ?_, ?_⟩ <;> simp [mqueue.Create, os.MkdirAll, hdir, ho, hself]

/-- Witness of C14: `Create("L1", "")` on an empty disk with the creation
succeeding, on a disk that holds the directory with the creation refused, and
a second time with the creation refused. -/
theorem Create_then_Exists_witness :
    Outcome.ok.mkdirAll = none ∧
    (mqueue.Exists (mqueue.Create (mqueue.Init "/state" []) exBare Outcome.ok "L1" "").2.1
      (mqueue.Create (mqueue.Init "/state" []) exBare Outcome.ok "L1" "").2.2 "L1").1 = true ∧
    exCreated.dirs (mqueue.dir (mqueue.Init "/state" []) "L1") = true ∧
    exDenied.mkdirAll ≠ none ∧
    (mqueue.Create (mqueue.Init "/state" []) exCreated exDenied "L1" "").1 = none ∧
    (mqueue.Create (mqueue.Init "/state" []) exBare Outcome.ok "L1" "").1 = none ∧
    (mqueue.Create (mqueue.Create (mqueue.Init "/state" []) exBare Outcome.ok "L1" "").2.1
      (mqueue.Create (mqueue.Init "/state" []) exBare Outcome.ok "L1" "").2.2 exDenied "L1"
        "").1 = none :=
  ⟨rfl,
   ((Create_then_Exists (mqueue.Init "/state" []) exBare Outcome.ok "L1").1 rfl).2.2.1,
   by decide, by decide,
   ((Create_then_Exists (mqueue.Init "/state" []) exCreated exDenied "L1").2.1 (by decide)).1,
   by decide,
   ((Create_then_Exists (mqueue.Init "/state" []) exBare Outcome.ok "L1").2.2 (by decide)
      exDenied).1⟩

/-- C15: in the `mqueue` driver, if the directory of `id` is absent `Remove`
returns an error and leaves the driver, the disk and the mount table
unchanged; if it is present and the recursive delete succeeds, `Remove`
returns no error, keeps the driver, removes the directory and every path
below it, leaves every other path as it was, and `Exists(id)` is false
afterwards. -/
theorem Remove_directory (d : Driver) (w : World) (o : Outcome) (id : String) :
    (w.dirs (mqueue.dir d id) = false →
      (mqueue.Remove d w o id).1 ≠ none ∧
      (mqueue.Remove d w o id).2.1 = d ∧
      (mqueue.Remove d w o id).2.2.dirs = w.dirs ∧
      (mqueue.Remove d w o id).2.2.mounts = w.mounts ∧
      (mqueue.Remove d w o id).2.2.calls = w.calls ++ [Syscall.stat (mqueue.dir d id)]) ∧
    (w.dirs (mqueue.dir d id) = true → o.removeAll = none →
      (mqueue.Remove d w o id).1 = none ∧
      (mqueue.Remove d w o id).2.1 = d ∧
      (∀ q, path.below (mqueue.dir d id) q = true →
        (mqueue.Remove d w o id).2.2.dirs q = false) ∧
      (∀ q, path.below (mqueue.dir d id) q = false →
        (mqueue.Remove d w o id).2.2.dirs q = w.dirs q) ∧
      (mqueue.Exists (mqueue.Remove d w o id).2.1 (mqueue.Remove d w o id).2.2 id).1 =
        false) := by
  constructor
  · intro hdir
    refine ⟨?_, ?_, ?_, ?_, ?_⟩ <;> simp [mqueue.Remove, os.Stat, hdir]
  · intro hdir ho
    have hrm : mqueue.Remove d w o id =
        (none, d, { w with
          calls := w.calls ++ [Syscall.stat (mqueue.dir d id)] ++
            [Syscall.removeAll (mqueue.dir d id)]
          dirs := fun q => w.dirs q && !path.below (mqueue.dir d id) q }) := by
      simp [mqueue.Remove, os.Stat, os.RemoveAll, hdir, ho]
    rw [hrm]
    refine ⟨rfl, rfl, ?_, ?_, ?_⟩
    · intro q hq
      simp [hq]
    · intro q hq
      simp [hq]
    · simp [mqueue.Exists, os.Stat, path.below]

/-- Witness of C15: `Remove("L1")` on an empty disk fails, and on a disk
holding the directory of `L1` it succeeds and `Exists("L1")` turns false. -/
theorem Remove_directory_witness :
    exBare.dirs (mqueue.dir (mqueue.Init "/state" []) "L1") = false ∧
    (mqueue.Remove (mqueue.Init "/state" []) exBare Outcome.ok "L1").1 ≠ none ∧
    exCreated.dirs (mqueue.dir (mqueue.Init "/state" []) "L1") = true ∧
    Outcome.ok.removeAll = none ∧
    (mqueue.Exists (mqueue.Remove (mqueue.Init "/state" []) exCreated Outcome.ok "L1").2.1
      (mqueue.Remove (mqueue.Init "/state" []) exCreated Outcome.ok "L1").2.2 "L1").1 = false :=
  ⟨by decide,
   ((Remove_directory (mqueue.Init "/state" []) exBare Outcome.ok "L1").1 (by decide)).1,
   by decide, rfl,
   ((Remove_directory (mqueue.Init "/state" []) exCreated Outcome.ok "L1").2 (by decide)
      rfl).2.2.2.2⟩

/-- C16: in both drivers `Remove(id)` on two drivers with the same home and
any two registries, in the same world and with the same answers of the
environment, returns the same result and leaves the same world, and each
driver, with every record, is handed back unchanged; in particular with the
directory present and the recursive delete succeeding, `Remove` returns no
error whatever the registry holds for `id`. -/
theorem Remove_ignores_registry (d1 d2 : Driver) (w : World) (o : Outcome) (id : String)
    (hhome : d1.home = d2.home) :
    ((shm.Remove d1 w o id).1 = (shm.Remove d2 w o id).1 ∧
      (shm.Remove d1 w o id).2.2 = (shm.Remove d2 w o id).2.2 ∧
      (shm.Remove d1 w o id).2.1 = d1 ∧
      (shm.Remove d2 w o id).2.1 = d2 ∧
      (w.dirs (shm.dir d1 id) = true → o.removeAll = none → (shm.Remove d1 w o id).1 = none)) ∧
    ((mqueue.Remove d1 w o id).1 = (mqueue.Remove d2 w o id).1 ∧
      (mqueue.Remove d1 w o id).2.2 = (mqueue.Remove d2 w o id).2.2 ∧
      (mqueue.Remove d1 w o id).2.1 = d1 ∧
      (mqueue.Remove d2 w o id).2.1 = d2 ∧
      (w.dirs (mqueue.dir d1 id) = true → o.removeAll = none →
        (mqueue.Remove d1 w o id).1 = none)) := by
  have hs : shm.dir d1 id = shm.dir d2 id := by simp [shm.dir, hhome]
  have hq : mqueue.dir d1 id = mqueue.dir d2 id := by simp [mqueue.dir, hhome]
  have hdrv : ∀ d : Driver, (shm.Remove d w o id).2.1 = d ∧ (mqueue.Remove d w o id).2.1 = d := by
    intro d
    constructor
    · simp only [shm.Remove, os.Stat]
      cases w.dirs (shm.dir d id) <;> rfl
    · simp only [mqueue.Remove, os.Stat]
      cases w.dirs (mqueue.dir d id) <;> rfl
  refine ⟨⟨?_, ?_, (hdrv d1).1, (hdrv d2).1, ?_⟩, ⟨?_, ?_, (hdrv d1).2, (hdrv d2).2, ?_⟩⟩
  · simp only [shm.Remove, os.Stat, hs]
    cases w.dirs (shm.dir d2 id) <;> rfl
  · simp only [shm.Remove, os.Stat, hs]
    cases w.dirs (shm.dir d2 id) <;> rfl
  · intro hdir ho
    simp [shm.Remove, os.Stat, os.RemoveAll, hdir, ho]
  · simp only [mqueue.Remove, os.Stat, hq]
    cases w.dirs (mqueue.dir d2 id) <;> rfl
  · simp only [mqueue.Remove, os.Stat, hq]
    cases w.dirs (mqueue.dir d2 id) <;> rfl
  · intro hdir ho
    simp [mqueue.Remove, os.Stat, os.RemoveAll, hdir, ho]

/-- Witness of C16: `Remove("L1")` with `L1` held once and with `L1` not held,
on the disk where the directory of `L1` is mounted. -/
theorem Remove_ignores_registry_witness :
    exHeld.home = (shm.Init "/state" []).home ∧
    (shm.Remove exHeld exMounted Outcome.ok "L1").1 =
      (shm.Remove (shm.Init "/state" []) exMounted Outcome.ok "L1").1 ∧
    (mqueue.Remove exHeld exMounted Outcome.ok "L1").2.1 = exHeld ∧
    (shm.Remove exHeld exMounted Outcome.ok "L1").1 = none :=
  ⟨rfl,
   (Remove_ignores_registry exHeld (shm.Init "/state" []) exMounted Outcome.ok "L1" rfl).1.1,
   (Remove_ignores_registry exHeld (shm.Init "/state" []) exMounted Outcome.ok "L1"
      rfl).2.2.2.1,
   (Remove_ignores_registry exHeld (shm.Init "/state" []) exMounted Outcome.ok "L1"
      rfl).1.2.2.2.2 (by decide) rfl⟩

/-! ## Identifiers with the same basename -/

/-- A first `Get` that succeeds, with the world it leaves. -/
theorem mqueue_Get_fresh (d : Driver) (w : World) (o : Outcome) (id l : String)
    (hnone : d.active id = none) (hdir : w.dirs (mqueue.dir d id) = true)
    (hmount : o.mount = none) :
    mqueue.Get d w o id l =
      ((mqueue.dir d id, none), d.store id ⟨1, mqueue.dir d id, true⟩,
       { dirs := fun q => w.dirs q && !path.inside (mqueue.dir d id) q
         mounts := mqueue.dir d id :: w.mounts
         calls := w.calls ++
           [Syscall.stat (mqueue.dir d id),
            Syscall.mount "mqueue" (mqueue.dir d id) "mqueue"
              (syscall.MS_NODEV ||| syscall.MS_NOSUID ||| syscall.MS_NOEXEC) ""]
         covered := fun t =>
           if t = mqueue.dir d id then
             (fun q => w.dirs q && path.inside (mqueue.dir d id) q) :: w.covered t
           else w.covered t }) := by
  simp [mqueue.Get, hnone, hdir, hmount, os.Stat, syscall.Mount]

/-- A `Put` on a mounted record of count 1. -/
theorem mqueue_Put_last (d : Driver) (w : World) (o : Outcome) (id : String) (m : ActiveMount)
    (h : d.active id = some m) (hc : m.count = 1) (hm : m.mounted = true) :
    mqueue.Put d w o id =
      ((syscall.Unmount w o m.path 0).1, d.delete id, (syscall.Unmount w o m.path 0).2) := by
  simp [mqueue.Put, h, hc, hm, Go.decr_one]

/-- A first `Get` that succeeds, with the world it leaves. -/
theorem shm_Get_fresh (d : Driver) (w : World) (o : Outcome) (id l : String)
    (hnone : d.active id = none) (hdir : w.dirs (shm.dir d id) = true)
    (hmount : o.mount = none) :
    shm.Get d w o id l =
      ((shm.dir d id, none), d.store id ⟨1, shm.dir d id, true⟩,
       { dirs := fun q => w.dirs q && !path.inside (shm.dir d id) q
         mounts := shm.dir d id :: w.mounts
         calls := w.calls ++
           [Syscall.stat (shm.dir d id),
            Syscall.mount "tmpfs" (shm.dir d id) "tmpfs"
              (syscall.MS_NODEV ||| syscall.MS_NOSUID ||| syscall.MS_NOEXEC) "mode=1777,size=65536k"]
         covered := fun t =>
           if t = shm.dir d id then
             (fun q => w.dirs q && path.inside (shm.dir d id) q) :: w.covered t
           else w.covered t }) := by
  simp [shm.Get, hnone, hdir, hmount, os.Stat, syscall.Mount]

/-- A `Put` on a mounted record of count 1. -/
theorem shm_Put_last (d : Driver) (w : World) (o : Outcome) (id : String) (m : ActiveMount)
    (h : d.active id = some m) (hc : m.count = 1) (hm : m.mounted = true) :
    shm.Put d w o id =
      ((syscall.Unmount w o m.path 0).1, d.delete id, (syscall.Unmount w o m.path 0).2) := by
  simp [shm.Put, h, hc, hm, Go.decr_one]

/-- C20: in both drivers, for distinct identifiers `id1` and `id2` with the
same basename, neither holding a record, the directory present and both mounts
succeeding: the two identifiers have the same directory; `Get(id1, _)` then
`Get(id2, _)` both return it, issue two `Stat` and two `Mount` calls on it, so
that it is mounted twice, and store one record with count 1 under each of the
two keys; a following `Put(id1)` issues one `Unmount` of that directory and
removes the record of `id1`, while the record of `id2` stays with count 1 and
mounted set; if that unmount succeeds one mount is left on the directory. -/
theorem Get_same_basename (d : Driver) (w : World) (o1 o2 o3 : Outcome)
    (id1 id2 l1 l2 : String) (hne : id1 ≠ id2) (hbase : path.Base id1 = path.Base id2)
    (h1 : d.active id1 = none) (h2 : d.active id2 = none)
    (hdir : w.dirs (mqueue.dir d id1) = true) (hm1 : o1.mount = none)
    (hm2 : o2.mount = none) :
    (mqueue.dir d id1 = mqueue.dir d id2 ∧
      (mqueue.run (d, w) [(o1, Call.Get id1 l1), (o2, Call.Get id2 l2)]).1 =
        [Result.path (mqueue.dir d id1) none, Result.path (mqueue.dir d id1) none] ∧
      (mqueue.run (d, w) [(o1, Call.Get id1 l1), (o2, Call.Get id2 l2)]).2.2.calls =
        w.calls ++
          [Syscall.stat (mqueue.dir d id1),
           Syscall.mount "mqueue" (mqueue.dir d id1) "mqueue"
             (syscall.MS_NODEV ||| syscall.MS_NOSUID ||| syscall.MS_NOEXEC) "",
           Syscall.stat (mqueue.dir d id1),
           Syscall.mount "mqueue" (mqueue.dir d id1) "mqueue"
             (syscall.MS_NODEV ||| syscall.MS_NOSUID ||| syscall.MS_NOEXEC) ""] ∧
      (mqueue.run (d, w) [(o1, Call.Get id1 l1), (o2, Call.Get id2 l2)]).2.2.mounts =
        mqueue.dir d id1 :: mqueue.dir d id1 :: w.mounts ∧
      (mqueue.run (d, w) [(o1, Call.Get id1 l1), (o2, Call.Get id2 l2)]).2.1.active id1 =
        some ⟨1, mqueue.dir d id1, true⟩ ∧
      (mqueue.run (d, w) [(o1, Call.Get id1 l1), (o2, Call.Get id2 l2)]).2.1.active id2 =
        some ⟨1, mqueue.dir d id1, true⟩ ∧
      (mqueue.run (d, w)
          [(o1, Call.Get id1 l1), (o2, Call.Get id2 l2), (o3, Call.Put id1)]).2.2.calls =
        (mqueue.run (d, w) [(o1, Call.Get id1 l1), (o2, Call.Get id2 l2)]).2.2.calls ++
          [Syscall.unmount (mqueue.dir d id1) 0] ∧
      (mqueue.run (d, w)
          [(o1, Call.Get id1 l1), (o2, Call.Get id2 l2), (o3, Call.Put id1)]).2.1.active id1 =
        none ∧
      (mqueue.run (d, w)
          [(o1, Call.Get id1 l1), (o2, Call.Get id2 l2), (o3, Call.Put id1)]).2.1.active id2 =
        some ⟨1, mqueue.dir d id1, true⟩ ∧
      (o3.unmount = none →
        (mqueue.run (d, w)
            [(o1, Call.Get id1 l1), (o2, Call.Get id2 l2), (o3, Call.Put id1)]).2.2.mounts =
          mqueue.dir d id1 :: w.mounts)) ∧
    (shm.dir d id1 = shm.dir d id2 ∧
      (shm.run (d, w) [(o1, Call.Get id1 l1), (o2, Call.Get id2 l2)]).1 =
        [Result.path (shm.dir d id1) none, Result.path (shm.dir d id1) none] ∧
      (shm.run (d, w) [(o1, Call.Get id1 l1), (o2, Call.Get id2 l2)]).2.2.calls =
        w.calls ++
          [Syscall.stat (shm.dir d id1),
           Syscall.mount "tmpfs" (shm.dir d id1) "tmpfs"
             (syscall.MS_NODEV ||| syscall.MS_NOSUID ||| syscall.MS_NOEXEC) "mode=1777,size=65536k",
           Syscall.stat (shm.dir d id1),
           Syscall.mount "tmpfs" (shm.dir d id1) "tmpfs"
             (syscall.MS_NODEV ||| syscall.MS_NOSUID ||| syscall.MS_NOEXEC) "mode=1777,size=65536k"] ∧
      (shm.run (d, w) [(o1, Call.Get id1 l1), (o2, Call.Get id2 l2)]).2.2.mounts =
        shm.dir d id1 :: shm.dir d id1 :: w.mounts ∧
      (shm.run (d, w) [(o1, Call.Get id1 l1), (o2, Call.Get id2 l2)]).2.1.active id1 =
        some ⟨1, shm.dir d id1, true⟩ ∧
      (shm.run (d, w) [(o1, Call.Get id1 l1), (o2, Call.Get id2 l2)]).2.1.active id2 =
        some ⟨1, shm.dir d id1, true⟩ ∧
      (shm.run (d, w)
          [(o1, Call.Get id1 l1), (o2, Call.Get id2 l2), (o3, Call.Put id1)]).2.2.calls =
        (shm.run (d, w) [(o1, Call.Get id1 l1), (o2, Call.Get id2 l2)]).2.2.calls ++
          [Syscall.unmount (shm.dir d id1) 0] ∧
      (shm.run (d, w)
          [(o1, Call.Get id1 l1), (o2, Call.Get id2 l2), (o3, Call.Put id1)]).2.1.active id1 =
        none ∧
      (shm.run (d, w)
          [(o1, Call.Get id1 l1), (o2, Call.Get id2 l2), (o3, Call.Put id1)]).2.1.active id2 =
        some ⟨1, shm.dir d id1, true⟩ ∧
      (o3.unmount = none →
        (shm.run (d, w)
            [(o1, Call.Get id1 l1), (o2, Call.Get id2 l2), (o3, Call.Put id1)]).2.2.mounts =
          shm.dir d id1 :: w.mounts)) := by
  have hne2 : id2 ≠ id1 := fun h => hne h.symm
  have hins : ∀ p : String, path.inside p p = false := by intro p; simp [path.inside]
  constructor
  · have hp : mqueue.dir d id2 = mqueue.dir d id1 := by simp [mqueue.dir, hbase]
    have hg1 := mqueue_Get_fresh d w o1 id1 l1 h1 hdir hm1
    have hg2 := mqueue_Get_fresh (d.store id1 ⟨1, mqueue.dir d id1, true⟩)
      { dirs := fun q => w.dirs q && !path.inside (mqueue.dir d id1) q
        mounts := mqueue.dir d id1 :: w.mounts
        calls := w.calls ++
          [Syscall.stat (mqueue.dir d id1),
           Syscall.mount "mqueue" (mqueue.dir d id1) "mqueue"
             (syscall.MS_NODEV ||| syscall.MS_NOSUID ||| syscall.MS_NOEXEC) ""]
        covered := fun t =>
          if t = mqueue.dir d id1 then
            (fun q => w.dirs q && path.inside (mqueue.dir d id1) q) :: w.covered t
          else w.covered t }
      o2 id2 l2 (by simp [Driver.store, hne2, h2])
      (by
        have hd2 : mqueue.dir (d.store id1 ⟨1, mqueue.dir d id1, true⟩) id2 = mqueue.dir d id1 := hp
        rw [hd2]
        simp [hins, show w.dirs (mqueue.dir d id1) = true from hdir]) hm2
    have hd2 : mqueue.dir (d.store id1 ⟨1, mqueue.dir d id1, true⟩) id2 = mqueue.dir d id1 := hp
    rw [hd2] at hg2
    have hrun2 : mqueue.run (d, w) [(o1, Call.Get id1 l1), (o2, Call.Get id2 l2)] =
        ([Result.path (mqueue.dir d id1) none, Result.path (mqueue.dir d id1) none],
         (mqueue.Get (d.store id1 ⟨1, mqueue.dir d id1, true⟩) (mqueue.Get d w o1 id1 l1).2.2 o2 id2
            l2).2) := by
      simp only [mqueue.run, mqueue.step, hg1, hg2]
    have hput := mqueue_Put_last (mqueue.run (d, w) [(o1, Call.Get id1 l1), (o2, Call.Get id2 l2)]).2.1
      (mqueue.run (d, w) [(o1, Call.Get id1 l1), (o2, Call.Get id2 l2)]).2.2 o3 id1
      ⟨1, mqueue.dir d id1, true⟩
      (by rw [hrun2, hg1, hg2]; simp [Driver.store, hne]) rfl rfl
    have hrun3 : (mqueue.run (d, w)
          [(o1, Call.Get id1 l1), (o2, Call.Get id2 l2), (o3, Call.Put id1)]).2 =
        (mqueue.Put (mqueue.run (d, w) [(o1, Call.Get id1 l1), (o2, Call.Get id2 l2)]).2.1
          (mqueue.run (d, w) [(o1, Call.Get id1 l1), (o2, Call.Get id2 l2)]).2.2 o3 id1).2 := by
      simp only [mqueue.run, mqueue.step]
    refine ⟨hp.symm, ?_, ?_, ?_, ?_, ?_, ?_, ?_, ?_, ?_⟩
    · rw [hrun2]
    · rw [hrun2, hg1, hg2]; simp
    · rw [hrun2, hg1, hg2]
    · rw [hrun2, hg1, hg2]; simp [Driver.store, hne]
    · rw [hrun2, hg1, hg2]; simp [Driver.store]
    · rw [hrun3, hput]
      cases hc3 : o3.unmount <;> simp [syscall.Unmount, hc3]
    · rw [hrun3, hput]; simp [Driver.delete]
    · rw [hrun3, hput, hrun2, hg1, hg2]; simp [Driver.delete, Driver.store, hne2]
    · intro ho3
      rw [hrun3, hput, hrun2, hg1, hg2]
      simp [syscall.Unmount, ho3]
  · have hp : shm.dir d id2 = shm.dir d id1 := by simp [shm.dir, hbase]
    have hg1 := shm_Get_fresh d w o1 id1 l1 h1 hdir hm1
    have hg2 := shm_Get_fresh (d.store id1 ⟨1, shm.dir d id1, true⟩)
      { dirs := fun q => w.dirs q && !path.inside (shm.dir d id1) q
        mounts := shm.dir d id1 :: w.mounts
        calls := w.calls ++
          [Syscall.stat (shm.dir d id1),
           Syscall.mount "tmpfs" (shm.dir d id1) "tmpfs"
             (syscall.MS_NODEV ||| syscall.MS_NOSUID ||| syscall.MS_NOEXEC) "mode=1777,size=65536k"]
        covered := fun t =>
          if t = shm.dir d id1 then
            (fun q => w.dirs q && path.inside (shm.dir d id1) q) :: w.covered t
          else w.covered t }
      o2 id2 l2 (by simp [Driver.store, hne2, h2])
      (by
        have hd2 : shm.dir (d.store id1 ⟨1, shm.dir d id1, true⟩) id2 = shm.dir d id1 := hp
        rw [hd2]
        simp [hins, show w.dirs (shm.dir d id1) = true from hdir]) hm2
    have hd2 : shm.dir (d.store id1 ⟨1, shm.dir d id1, true⟩) id2 = shm.dir d id1 := hp
    rw [hd2] at hg2
    have hrun2 : shm.run (d, w) [(o1, Call.Get id1 l1), (o2, Call.Get id2 l2)] =
        ([Result.path (shm.dir d id1) none, Result.path (shm.dir d id1) none],
         (shm.Get (d.store id1 ⟨1, shm.dir d id1, true⟩) (shm.Get d w o1 id1 l1).2.2 o2 id2
            l2).2) := by
      simp only [shm.run, shm.step, hg1, hg2]
    have hput := shm_Put_last (shm.run (d, w) [(o1, Call.Get id1 l1), (o2, Call.Get id2 l2)]).2.1
      (shm.run (d, w) [(o1, Call.Get id1 l1), (o2, Call.Get id2 l2)]).2.2 o3 id1
      ⟨1, shm.dir d id1, true⟩
      (by rw [hrun2, hg1, hg2]; simp [Driver.store, hne]) rfl rfl
    have hrun3 : (shm.run (d, w)
          [(o1, Call.Get id1 l1), (o2, Call.Get id2 l2), (o3, Call.Put id1)]).2 =
        (shm.Put (shm.run (d, w) [(o1, Call.Get id1 l1), (o2, Call.Get id2 l2)]).2.1
          (shm.run (d, w) [(o1, Call.Get id1 l1), (o2, Call.Get id2 l2)]).2.2 o3 id1).2 := by
      simp only [shm.run, shm.step]
    refine ⟨hp.symm, ?_, ?_, ?_, ?_, ?_, ?_, ?_, ?_, ?_⟩
    · rw [hrun2]
    · rw [hrun2, hg1, hg2]; simp
    · rw [hrun2, hg1, hg2]
    · rw [hrun2, hg1, hg2]; simp [Driver.store, hne]
    · rw [hrun2, hg1, hg2]; simp [Driver.store]
    · rw [hrun3, hput]
      cases hc3 : o3.unmount <;> simp [syscall.Unmount, hc3]
    · rw [hrun3, hput]; simp [Driver.delete]
    · rw [hrun3, hput, hrun2, hg1, hg2]; simp [Driver.delete, Driver.store, hne2]
    · intro ho3
      rw [hrun3, hput, hrun2, hg1, hg2]
      simp [syscall.Unmount, ho3]

/-- Witness of C20: the identifiers `a/x` and `x` under `/state`. -/
theorem Get_same_basename_witness :
    ("a/x" : String) ≠ "x" ∧ path.Base "a/x" = path.Base "x" ∧
    exShared.dirs (mqueue.dir (mqueue.Init "/state" []) "a/x") = true ∧
    (mqueue.run (mqueue.Init "/state" [], exShared)
        [(Outcome.ok, Call.Get "a/x" ""), (Outcome.ok, Call.Get "x" "")]).2.2.mounts =
      ["/state/dir/x", "/state/dir/x"] ∧
    (shm.run (shm.Init "/state" [], exShared)
        [(Outcome.ok, Call.Get "a/x" ""), (Outcome.ok, Call.Get "x" ""),
         (Outcome.ok, Call.Put "a/x")]).2.1.active "x" = some ⟨1, "/state/dir/x", true⟩ :=
  ⟨by decide, by decide, by decide,
   ((Get_same_basename (mqueue.Init "/state" []) exShared Outcome.ok Outcome.ok Outcome.ok
      "a/x" "x" "" "" (by decide) (by decide) rfl rfl (by decide) rfl rfl).1.2.2.2.1).trans
      (by decide),
   ((Get_same_basename (shm.Init "/state" []) exShared Outcome.ok Outcome.ok Outcome.ok
      "a/x" "x" "" "" (by decide) (by decide) rfl rfl (by decide) rfl
      rfl).2.2.2.2.2.2.2.2.2.1).trans (by decide)⟩

/-! ## Well-formed records and the mount table along a run -/

theorem wellFormed_store {d : Driver} (id : String) (m : ActiveMount) (h : WellFormed d)
    (hm : m.mounted = true) (hp : m.path = mqueue.dir d id) : WellFormed (d.store id m) := by
  intro k r hk
  by_cases hkid : k = id
  · subst hkid
    simp [Driver.store] at hk
    subst hk
    exact ⟨hm, hp⟩
  · simp [Driver.store, hkid] at hk
    exact h k r hk

theorem wellFormed_delete {d : Driver} (id : String) (h : WellFormed d) :
    WellFormed (d.delete id) := by
  intro k r hk
  by_cases hkid : k = id
  · simp [Driver.delete, hkid] at hk
  · simp [Driver.delete, hkid] at hk
    exact h k r hk

theorem mountsMatch_store_existing {d : Driver} {w w2 : World} (id : String)
    (m : ActiveMount) (hid : d.active id ≠ none) (h : MountsMatch d w)
    (hw : w2.mounts = w.mounts) : MountsMatch (d.store id m) w2 := by
  obtain ⟨ks, hnd, hmem, hperm⟩ := h
  refine ⟨ks, hnd, ?_, ?_⟩
  · intro k
    rw [hmem k]
    by_cases hk : k = id
    · subst hk; simp [Driver.store, hid]
    · simp [Driver.store, hk]
  · rw [hw]; exact hperm

theorem mountsMatch_store_new {d : Driver} {w w2 : World} (id : String)
    (m : ActiveMount) (hid : d.active id = none) (h : MountsMatch d w)
    (hw : w2.mounts = mqueue.dir d id :: w.mounts) : MountsMatch (d.store id m) w2 := by
  obtain ⟨ks, hnd, hmem, hperm⟩ := h
  have hnot : id ∉ ks := by
    intro hin
    exact (hmem id).1 hin hid
  refine ⟨id :: ks, List.nodup_cons.2 ⟨hnot, hnd⟩, ?_, ?_⟩
  · intro k
    by_cases hk : k = id
    · subst hk; simp [Driver.store]
    · simp [Driver.store, hk, hmem k]
  · rw [hw]
    exact List.Perm.cons _ hperm

theorem mountsMatch_delete {d : Driver} {w w2 : World} (id : String)
    (hid : d.active id ≠ none) (h : MountsMatch d w)
    (hw : w2.mounts = w.mounts.erase (mqueue.dir d id)) : MountsMatch (d.delete id) w2 := by
  obtain ⟨ks, hnd, hmem, hperm⟩ := h
  have hin : id ∈ ks := (hmem id).2 hid
  refine ⟨ks.erase id, hnd.erase id, ?_, ?_⟩
  · intro k
    rw [hnd.mem_erase_iff, hmem k]
    by_cases hk : k = id
    · subst hk; simp [Driver.delete]
    · simp [Driver.delete, hk]
  · rw [hw]
    have h1 : (ks.map (mqueue.dir d)).Perm
        (mqueue.dir d id :: (ks.erase id).map (mqueue.dir d)) :=
      (List.perm_cons_erase hin).map (mqueue.dir d)
    have h2 := (hperm.trans h1).erase (mqueue.dir d id)
    simpa using h2

theorem mountsMatch_same {d : Driver} {w w2 : World} (h : MountsMatch d w)
    (hw : w2.mounts = w.mounts) : MountsMatch d w2 := by
  obtain ⟨ks, hnd, hmem, hperm⟩ := h
  exact ⟨ks, hnd, hmem, by rw [hw]; exact hperm⟩

theorem shm_step_driver (s : Driver × World) (o : Outcome) (c : Call)
    (hget : ∀ id l, c ≠ Call.Get id l) (hput : ∀ id, c ≠ Call.Put id) :
    (shm.step s o c).2.1 = s.1 := by
  cases c with
  | Create id parent =>
    by_cases hp : parent = "" <;> cases hdir : s.2.dirs (shm.dir s.1 id) <;>
      cases ho : o.mkdirAll <;> simp [shm.step, shm.Create, os.MkdirAll, hp, hdir, ho]
  | Remove id =>
    simp only [shm.step, shm.Remove, os.Stat]
    cases s.2.dirs (shm.dir s.1 id) <;> rfl
  | Get id l => exact absurd rfl (hget id l)
  | Put id => exact absurd rfl (hput id)
  | Exists id => rfl
  | Status => rfl
  | Cleanup => rfl

theorem shm_Get_cases (d : Driver) (w : World) (o : Outcome) (id l : String) :
    (∃ m, d.active id = some m ∧ (shm.Get d w o id l).1.2 = none ∧
      (shm.Get d w o id l).2.1 = d.store id ⟨Go.incr m.count, m.path, m.mounted⟩) ∨
    (d.active id = none ∧ (shm.Get d w o id l).1.2 = none ∧
      (shm.Get d w o id l).2.1 = d.store id ⟨1, shm.dir d id, true⟩) ∨
    (d.active id = none ∧ (shm.Get d w o id l).1.2 ≠ none ∧
      (shm.Get d w o id l).2.1 = d) := by
  cases h : d.active id with
  | some m => exact Or.inl ⟨m, rfl, by simp [shm.Get, h], by simp [shm.Get, h]⟩
  | none =>
    right
    cases hd : w.dirs (shm.dir d id) with
    | false => exact Or.inr ⟨rfl, by simp [shm.Get, h, hd, os.Stat],
        by simp [shm.Get, h, hd, os.Stat]⟩
    | true =>
      cases hm : o.mount with
      | none => exact Or.inl ⟨rfl, by simp [shm.Get, h, hd, hm, os.Stat, syscall.Mount],
          by simp [shm.Get, h, hd, hm, os.Stat, syscall.Mount]⟩
      | some e => exact Or.inr ⟨rfl, by simp [shm.Get, h, hd, hm, os.Stat, syscall.Mount],
          by simp [shm.Get, h, hd, hm, os.Stat, syscall.Mount]⟩

theorem shm_Put_cases (d : Driver) (w : World) (o : Outcome) (id : String) :
    (d.active id = none ∧ (shm.Put d w o id).2.1 = d) ∨
    (∃ m, d.active id = some m ∧ 0 < Go.decr m.count ∧
      (shm.Put d w o id).2.1 = d.store id ⟨Go.decr m.count, m.path, m.mounted⟩) ∨
    (∃ m, d.active id = some m ∧ Go.decr m.count ≤ 0 ∧
      (shm.Put d w o id).2.1 = d.delete id) := by
  cases h : d.active id with
  | none => exact Or.inl ⟨rfl, by simp [shm.Put, h]⟩
  | some m =>
    right
    by_cases hc : 0 < Go.decr m.count
    · exact Or.inl ⟨m, rfl, hc, by simp [shm.Put, h, hc]⟩
    · refine Or.inr ⟨m, rfl, by omega, ?_⟩
      cases hm : m.mounted <;> simp [shm.Put, h, hc, hm]

theorem mqueue_step_well_formed (s : Driver × World) (o : Outcome) (c : Call)
    (h : WellFormed s.1) : WellFormed (mqueue.step s o c).2.1 := by
  by_cases hget : ∃ id l, c = Call.Get id l
  · obtain ⟨id, l, rfl⟩ := hget
    simp only [mqueue.step]
    rcases mqueue_Get_cases s.1 s.2 o id l with ⟨m0, h0, _, hd⟩ | ⟨_, _, hd⟩ | ⟨_, _, hd⟩
    · rw [hd]
      exact wellFormed_store id _ h (h id m0 h0).1 (h id m0 h0).2
    · rw [hd]
      exact wellFormed_store id _ h rfl rfl
    · rw [hd]
      exact h
  by_cases hput : ∃ id, c = Call.Put id
  · obtain ⟨id, rfl⟩ := hput
    simp only [mqueue.step]
    rcases mqueue_Put_cases s.1 s.2 o id with ⟨_, hd⟩ | ⟨m0, h0, _, hd⟩ | ⟨m0, h0, _, hd⟩
    · rw [hd]
      exact h
    · rw [hd]
      exact wellFormed_store id _ h (h id m0 h0).1 (h id m0 h0).2
    · rw [hd]
      exact wellFormed_delete id h
  · rw [mqueue_step_driver s o c (fun id l hc => hget ⟨id, l, hc⟩) (fun id hc => hput ⟨id, hc⟩)]
    exact h

theorem mqueue_run_well_formed (cs : List (Outcome × Call)) (s : Driver × World)
    (h : WellFormed s.1) : WellFormed (mqueue.run s cs).2.1 := by
  induction cs generalizing s with
  | nil => exact h
  | cons oc rest ih =>
    simp only [mqueue.run]
    exact ih _ (mqueue_step_well_formed s oc.1 oc.2 h)

theorem shm_step_well_formed (s : Driver × World) (o : Outcome) (c : Call)
    (h : WellFormed s.1) : WellFormed (shm.step s o c).2.1 := by
  by_cases hget : ∃ id l, c = Call.Get id l
  · obtain ⟨id, l, rfl⟩ := hget
    simp only [shm.step]
    rcases shm_Get_cases s.1 s.2 o id l with ⟨m0, h0, _, hd⟩ | ⟨_, _, hd⟩ | ⟨_, _, hd⟩
    · rw [hd]
      exact wellFormed_store id _ h (h id m0 h0).1 (h id m0 h0).2
    · rw [hd]
      exact wellFormed_store id _ h rfl rfl
    · rw [hd]
      exact h
  by_cases hput : ∃ id, c = Call.Put id
  · obtain ⟨id, rfl⟩ := hput
    simp only [shm.step]
    rcases shm_Put_cases s.1 s.2 o id with ⟨_, hd⟩ | ⟨m0, h0, _, hd⟩ | ⟨m0, h0, _, hd⟩
    · rw [hd]
      exact h
    · rw [hd]
      exact wellFormed_store id _ h (h id m0 h0).1 (h id m0 h0).2
    · rw [hd]
      exact wellFormed_delete id h
  · rw [shm_step_driver s o c (fun id l hc => hget ⟨id, l, hc⟩) (fun id hc => hput ⟨id, hc⟩)]
    exact h

theorem shm_run_well_formed (cs : List (Outcome × Call)) (s : Driver × World)
    (h : WellFormed s.1) : WellFormed (shm.run s cs).2.1 := by
  induction cs generalizing s with
  | nil => exact h
  | cons oc rest ih =>
    simp only [shm.run]
    exact ih _ (shm_step_well_formed s oc.1 oc.2 h)

/-- C19: in both drivers, after any sequence of calls on the freshly
initialised driver, in any world and with any answers of the environment,
every record stored under a key `id` is marked mounted and holds the directory
of `id` as its path; consequently `Put` never reaches its branch for a record
that is not mounted: a `Put(id)` on a record of count 1, which brings the count
to zero, issues exactly one `Unmount` of the directory of `id`. -/
theorem records_well_formed (home : String) (options : List String) (w : World)
    (cs : List (Outcome × Call)) :
    ((∀ id m, (shm.run (shm.Init home options, w) cs).2.1.active id = some m →
        m.mounted = true ∧ m.path = shm.dir (shm.run (shm.Init home options, w) cs).2.1 id) ∧
      (∀ id m (o : Outcome),
        (shm.run (shm.Init home options, w) cs).2.1.active id = some m → m.count = 1 →
          (shm.Put (shm.run (shm.Init home options, w) cs).2.1
              (shm.run (shm.Init home options, w) cs).2.2 o id).2.2.calls =
            (shm.run (shm.Init home options, w) cs).2.2.calls ++
              [Syscall.unmount (shm.dir (shm.run (shm.Init home options, w) cs).2.1 id) 0])) ∧
    ((∀ id m, (mqueue.run (mqueue.Init home options, w) cs).2.1.active id = some m →
        m.mounted = true ∧ m.path = mqueue.dir (mqueue.run (mqueue.Init home options, w) cs).2.1 id) ∧
      (∀ id m (o : Outcome),
        (mqueue.run (mqueue.Init home options, w) cs).2.1.active id = some m → m.count = 1 →
          (mqueue.Put (mqueue.run (mqueue.Init home options, w) cs).2.1
              (mqueue.run (mqueue.Init home options, w) cs).2.2 o id).2.2.calls =
            (mqueue.run (mqueue.Init home options, w) cs).2.2.calls ++
              [Syscall.unmount (mqueue.dir (mqueue.run (mqueue.Init home options, w) cs).2.1 id) 0])) := by
  have hs0 : WellFormed (shm.Init home options, w).1 := by
    intro id m hm
    simp [shm.Init] at hm
  have hq0 : WellFormed (mqueue.Init home options, w).1 := by
    intro id m hm
    simp [mqueue.Init] at hm
  have hs := shm_run_well_formed cs _ hs0
  have hq := mqueue_run_well_formed cs _ hq0
  refine ⟨⟨fun id m hm => hs id m hm, ?_⟩, ⟨fun id m hm => hq id m hm, ?_⟩⟩
  · intro id m o hm hc
    obtain ⟨hmo, hpa⟩ := hs id m hm
    have hpa2 : m.path = shm.dir (shm.run (shm.Init home options, w) cs).2.1 id := hpa
    cases ho : o.unmount <;>
      simp [shm.Put, hm, hc, hmo, hpa2, ho, syscall.Unmount, Go.decr_one]
  · intro id m o hm hc
    obtain ⟨hmo, hpa⟩ := hq id m hm
    cases ho : o.unmount <;>
      simp [mqueue.Put, hm, hc, hmo, hpa, ho, syscall.Unmount, Go.decr_one]

/-- Witness of C19: after `Create`, `Get`, `Get`, `Put` of `L1` the record of
`L1` has count 1, and the next `Put` unmounts `/state/dir/L1`. -/
theorem records_well_formed_witness :
    (mqueue.run (mqueue.Init "/state" [], exBare) exCalls).2.1.active "L1" =
      some ⟨1, "/state/dir/L1", true⟩ ∧
    (mqueue.Put (mqueue.run (mqueue.Init "/state" [], exBare) exCalls).2.1
        (mqueue.run (mqueue.Init "/state" [], exBare) exCalls).2.2 exBusy "L1").2.2.calls =
      (mqueue.run (mqueue.Init "/state" [], exBare) exCalls).2.2.calls ++
        [Syscall.unmount "/state/dir/L1" 0] ∧
    ((⟨1, "/state/dir/L1", true⟩ : ActiveMount).mounted = true ∧
      (⟨1, "/state/dir/L1", true⟩ : ActiveMount).path =
        shm.dir (shm.run (shm.Init "/state" [], exBare) exCalls).2.1 "L1") :=
  ⟨by decide,
   ((records_well_formed "/state" [] exBare exCalls).2.2 "L1" ⟨1, "/state/dir/L1", true⟩ exBusy
      (by decide) rfl).trans (by decide),
   (records_well_formed "/state" [] exBare exCalls).1.1 "L1" ⟨1, "/state/dir/L1", true⟩
      (by decide)⟩

/-! ## The mount table along a run of the `mqueue` driver -/

theorem mqueue_Get_mounts (d : Driver) (w : World) (o : Outcome) (id l : String) :
    (∃ m, d.active id = some m ∧
      (mqueue.Get d w o id l).2.1 = d.store id ⟨Go.incr m.count, m.path, m.mounted⟩ ∧
      (mqueue.Get d w o id l).2.2.mounts = w.mounts) ∨
    (d.active id = none ∧
      (mqueue.Get d w o id l).2.1 = d.store id ⟨1, mqueue.dir d id, true⟩ ∧
      (mqueue.Get d w o id l).2.2.mounts = mqueue.dir d id :: w.mounts) ∨
    (d.active id = none ∧ (mqueue.Get d w o id l).2.1 = d ∧
      (mqueue.Get d w o id l).2.2.mounts = w.mounts) := by
  cases h : d.active id with
  | some m => exact Or.inl ⟨m, rfl, by simp [mqueue.Get, h], by simp [mqueue.Get, h]⟩
  | none =>
    right
    cases hd : w.dirs (mqueue.dir d id) with
    | false => exact Or.inr ⟨rfl, by simp [mqueue.Get, h, hd, os.Stat],
        by simp [mqueue.Get, h, hd, os.Stat]⟩
    | true =>
      cases hm : o.mount with
      | none => exact Or.inl ⟨rfl, by simp [mqueue.Get, h, hd, hm, os.Stat, syscall.Mount],
          by simp [mqueue.Get, h, hd, hm, os.Stat, syscall.Mount]⟩
      | some e => exact Or.inr ⟨rfl, by simp [mqueue.Get, h, hd, hm, os.Stat, syscall.Mount],
          by simp [mqueue.Get, h, hd, hm, os.Stat, syscall.Mount]⟩

theorem mqueue_Put_mounts (d : Driver) (w : World) (o : Outcome) (id : String)
    (ho : o.unmount = none) :
    (d.active id = none ∧ (mqueue.Put d w o id).2.1 = d ∧
      (mqueue.Put d w o id).2.2.mounts = w.mounts) ∨
    (∃ m, d.active id = some m ∧
      (mqueue.Put d w o id).2.1 = d.store id ⟨Go.decr m.count, m.path, m.mounted⟩ ∧
      (mqueue.Put d w o id).2.2.mounts = w.mounts) ∨
    (∃ m, d.active id = some m ∧ (mqueue.Put d w o id).2.1 = d.delete id ∧
      (m.mounted = true → (mqueue.Put d w o id).2.2.mounts = w.mounts.erase m.path)) := by
  cases h : d.active id with
  | none => exact Or.inl ⟨rfl, by simp [mqueue.Put, h], by simp [mqueue.Put, h]⟩
  | some m =>
    right
    by_cases hc : 0 < Go.decr m.count
    · exact Or.inl ⟨m, rfl, by simp [mqueue.Put, h, hc], by simp [mqueue.Put, h, hc]⟩
    · refine Or.inr ⟨m, rfl, ?_, ?_⟩
      · cases hm : m.mounted <;> simp [mqueue.Put, h, hc, hm]
      · intro hm
        simp [mqueue.Put, h, hc, hm, ho, syscall.Unmount]

theorem mqueue_step_mounts (s : Driver × World) (o : Outcome) (c : Call)
    (hget : ∀ id l, c ≠ Call.Get id l) (hput : ∀ id, c ≠ Call.Put id) :
    (mqueue.step s o c).2.2.mounts = s.2.mounts := by
  cases c with
  | Create id parent =>
    by_cases hp : parent = "" <;> cases hd : s.2.dirs (mqueue.dir s.1 id) <;>
      cases ho : o.mkdirAll <;>
      simp [mqueue.step, mqueue.Create, os.MkdirAll, hp, hd, ho]
  | Remove id =>
    cases hd : s.2.dirs (mqueue.dir s.1 id) <;> cases ho : o.removeAll <;>
      simp [mqueue.step, mqueue.Remove, os.Stat, os.RemoveAll, hd, ho]
  | Get id l => exact absurd rfl (hget id l)
  | Put id => exact absurd rfl (hput id)
  | Exists id => rfl
  | Status => rfl
  | Cleanup => rfl

theorem mqueue_step_mounts_match (s : Driver × World) (o : Outcome) (c : Call)
    (ho : o.unmount = none) (hwf : WellFormed s.1) (h : MountsMatch s.1 s.2) :
    MountsMatch (mqueue.step s o c).2.1 (mqueue.step s o c).2.2 := by
  by_cases hget : ∃ id l, c = Call.Get id l
  · obtain ⟨id, l, rfl⟩ := hget
    simp only [mqueue.step]
    rcases mqueue_Get_mounts s.1 s.2 o id l with ⟨m0, h0, hd, hw⟩ | ⟨h0, hd, hw⟩ | ⟨_, hd, hw⟩
    · rw [hd]
      exact mountsMatch_store_existing id _ (by simp [h0]) h hw
    · rw [hd]
      exact mountsMatch_store_new id _ h0 h hw
    · rw [hd]
      exact mountsMatch_same h hw
  by_cases hput : ∃ id, c = Call.Put id
  · obtain ⟨id, rfl⟩ := hput
    simp only [mqueue.step]
    rcases mqueue_Put_mounts s.1 s.2 o id ho with ⟨_, hd, hw⟩ | ⟨m0, h0, hd, hw⟩ |
      ⟨m0, h0, hd, hw⟩
    · rw [hd]
      exact mountsMatch_same h hw
    · rw [hd]
      exact mountsMatch_store_existing id _ (by simp [h0]) h hw
    · rw [hd]
      obtain ⟨hmo, hpa⟩ := hwf id m0 h0
      exact mountsMatch_delete id (by simp [h0]) h (by rw [hw hmo, hpa])
  · rw [mqueue_step_driver s o c (fun id l hc => hget ⟨id, l, hc⟩) (fun id hc => hput ⟨id, hc⟩)]
    exact mountsMatch_same h
      (mqueue_step_mounts s o c (fun id l hc => hget ⟨id, l, hc⟩) (fun id hc => hput ⟨id, hc⟩))

theorem mqueue_run_mounts_match (cs : List (Outcome × Call)) (s : Driver × World)
    (ho : ∀ oc ∈ cs, oc.1.unmount = none) (hwf : WellFormed s.1)
    (h : MountsMatch s.1 s.2) :
    MountsMatch (mqueue.run s cs).2.1 (mqueue.run s cs).2.2 := by
  induction cs generalizing s with
  | nil => exact h
  | cons oc rest ih =>
    simp only [mqueue.run]
    exact ih _ (fun x hx => ho x (List.mem_cons_of_mem _ hx))
      (mqueue_step_well_formed s oc.1 oc.2 hwf)
      (mqueue_step_mounts_match s oc.1 oc.2 (ho oc (List.mem_cons_self _ _)) hwf h)

/-- C11 fails for the identifier `x` after `Create("x", "")` and
`Get("a/x", _)` on the freshly initialised `mqueue` driver with nothing
mounted: the directory of `x`, which is also the directory of `a/x`, is a mount
point, yet the registry holds no record for `x`. -/
theorem mounted_iff_record_fails :
    exBare.mounts = [] ∧
    (∀ oc ∈ exAliased, oc.2.isCreateGetPut = true) ∧
    (∀ oc ∈ exAliased, oc.1.unmount = none) ∧
    (mqueue.run (mqueue.Init "/state" [], exBare) exAliased).2.1.active "x" = none ∧
    mqueue.dir (mqueue.run (mqueue.Init "/state" [], exBare) exAliased).2.1 "x" ∈
      (mqueue.run (mqueue.Init "/state" [], exBare) exAliased).2.2.mounts ∧
    ¬ ((∃ m, (mqueue.run (mqueue.Init "/state" [], exBare) exAliased).2.1.active "x" = some m ∧
          m.mounted = true) ↔
        mqueue.dir (mqueue.run (mqueue.Init "/state" [], exBare) exAliased).2.1 "x" ∈
          (mqueue.run (mqueue.Init "/state" [], exBare) exAliased).2.2.mounts) := by
  have hnone : (mqueue.run (mqueue.Init "/state" [], exBare) exAliased).2.1.active "x" = none := by
    decide
  have hin : mqueue.dir (mqueue.run (mqueue.Init "/state" [], exBare) exAliased).2.1 "x" ∈
      (mqueue.run (mqueue.Init "/state" [], exBare) exAliased).2.2.mounts := by
    decide
  refine ⟨rfl, by decide, by decide, hnone, hin, ?_⟩
  intro h
  obtain ⟨m, hm, _⟩ := h.2 hin
  rw [hnone] at hm
  cases hm

/-- C11 as amended: in the `mqueue` driver, after any sequence of `Create`,
`Get` and `Put` calls in which no unmount fails, on the freshly initialised
driver in a world with nothing mounted, a path is an active mount point if and
only if it is the directory of some identifier that has a record marked
mounted; in particular the directory of every identifier with a record marked
mounted is an active mount point. -/
theorem mounts_match_records (home : String) (options : List String) (w : World)
    (cs : List (Outcome × Call)) (hw : w.mounts = [])
    (_hcalls : ∀ oc ∈ cs, oc.2.isCreateGetPut = true)
    (hun : ∀ oc ∈ cs, oc.1.unmount = none) :
    (∀ p, p ∈ (mqueue.run (mqueue.Init home options, w) cs).2.2.mounts ↔
      ∃ id m, (mqueue.run (mqueue.Init home options, w) cs).2.1.active id = some m ∧
        m.mounted = true ∧
        mqueue.dir (mqueue.run (mqueue.Init home options, w) cs).2.1 id = p) ∧
    (∀ id, (∃ m, (mqueue.run (mqueue.Init home options, w) cs).2.1.active id = some m ∧
        m.mounted = true) →
      mqueue.dir (mqueue.run (mqueue.Init home options, w) cs).2.1 id ∈
        (mqueue.run (mqueue.Init home options, w) cs).2.2.mounts) := by
  have hwf0 : WellFormed (mqueue.Init home options, w).1 := by
    intro id m hm
    simp [mqueue.Init] at hm
  have hmm0 : MountsMatch (mqueue.Init home options, w).1 (mqueue.Init home options, w).2 :=
    ⟨[], List.nodup_nil, by intro id; simp [mqueue.Init], by simp [hw]⟩
  have hwf := mqueue_run_well_formed cs _ hwf0
  obtain ⟨ks, _, hmem, hperm⟩ := mqueue_run_mounts_match cs _ hun hwf0 hmm0
  have hall : ∀ p, p ∈ (mqueue.run (mqueue.Init home options, w) cs).2.2.mounts ↔
      ∃ id m, (mqueue.run (mqueue.Init home options, w) cs).2.1.active id = some m ∧
        m.mounted = true ∧
        mqueue.dir (mqueue.run (mqueue.Init home options, w) cs).2.1 id = p := by
    intro p
    rw [hperm.mem_iff, List.mem_map]
    constructor
    · rintro ⟨id, hid, hp⟩
      have hsome := (hmem id).1 hid
      cases hrec : (mqueue.run (mqueue.Init home options, w) cs).2.1.active id with
      | none => exact absurd hrec hsome
      | some m => exact ⟨id, m, hrec, (hwf id m hrec).1, hp⟩
    · rintro ⟨id, m, hrec, _, hp⟩
      exact ⟨id, (hmem id).2 (by simp [hrec]), hp⟩
  refine ⟨hall, ?_⟩
  rintro id ⟨m, hrec, hmo⟩
  exact (hall _).2 ⟨id, m, hrec, hmo, rfl⟩

/-- Witness of the amended C11: after `Create("x", "")` and `Get("a/x", _)`
the directory of `a/x` is a mount point. -/
theorem mounts_match_records_witness :
    exBare.mounts = [] ∧
    (∀ oc ∈ exAliased, oc.2.isCreateGetPut = true) ∧
    (∀ oc ∈ exAliased, oc.1.unmount = none) ∧
    (mqueue.run (mqueue.Init "/state" [], exBare) exAliased).2.1.active "a/x" =
      some ⟨1, "/state/dir/x", true⟩ ∧
    mqueue.dir (mqueue.run (mqueue.Init "/state" [], exBare) exAliased).2.1 "a/x" ∈
      (mqueue.run (mqueue.Init "/state" [], exBare) exAliased).2.2.mounts :=
  ⟨rfl, by decide, by decide, by decide,
   (mounts_match_records "/state" [] exBare exAliased rfl (by decide) (by decide)).2 "a/x"
     ⟨⟨1, "/state/dir/x", true⟩, by decide, rfl⟩⟩

/-! ## The directory at the time of a `Get` -/

theorem mqueue_step_home (s : Driver × World) (o : Outcome) (c : Call) :
    (mqueue.step s o c).2.1.home = s.1.home := by
  by_cases hget : ∃ id l, c = Call.Get id l
  · obtain ⟨id, l, rfl⟩ := hget
    simp only [mqueue.step]
    rcases mqueue_Get_cases s.1 s.2 o id l with ⟨m0, _, _, hd⟩ | ⟨_, _, hd⟩ | ⟨_, _, hd⟩ <;>
      rw [hd] <;> rfl
  by_cases hput : ∃ id, c = Call.Put id
  · obtain ⟨id, rfl⟩ := hput
    simp only [mqueue.step]
    rcases mqueue_Put_cases s.1 s.2 o id with ⟨_, hd⟩ | ⟨m0, _, _, hd⟩ | ⟨m0, _, _, hd⟩ <;>
      rw [hd] <;> rfl
  · rw [mqueue_step_driver s o c (fun id l hc => hget ⟨id, l, hc⟩) (fun id hc => hput ⟨id, hc⟩)]

theorem mqueue_dir_of_home (d1 d2 : Driver) (id : String) (h : d1.home = d2.home) :
    mqueue.dir d1 id = mqueue.dir d2 id := by
  simp [mqueue.dir, h]

theorem path.inside_self (p : String) : path.inside p p = false := by
  simp [path.inside]

/-- What `Get` does to the registry, the disk and the mount table. -/
theorem mqueue_Get_world (d : Driver) (w : World) (o : Outcome) (id l : String) :
    (∃ m, d.active id = some m ∧
      (mqueue.Get d w o id l).2.1 = d.store id ⟨Go.incr m.count, m.path, m.mounted⟩ ∧
      (mqueue.Get d w o id l).2.2.dirs = w.dirs ∧
      (mqueue.Get d w o id l).2.2.mounts = w.mounts) ∨
    (d.active id = none ∧ w.dirs (mqueue.dir d id) = true ∧
      (mqueue.Get d w o id l).2.1 = d.store id ⟨1, mqueue.dir d id, true⟩ ∧
      (mqueue.Get d w o id l).2.2.dirs =
        (fun q => w.dirs q && !path.inside (mqueue.dir d id) q) ∧
      (mqueue.Get d w o id l).2.2.mounts = mqueue.dir d id :: w.mounts) ∨
    (d.active id = none ∧ (mqueue.Get d w o id l).2.1 = d ∧
      (mqueue.Get d w o id l).2.2.dirs = w.dirs ∧
      (mqueue.Get d w o id l).2.2.mounts = w.mounts) := by
  cases h : d.active id with
  | some m => exact Or.inl ⟨m, rfl, by simp [mqueue.Get, h], by simp [mqueue.Get, h],
      by simp [mqueue.Get, h]⟩
  | none =>
    right
    cases hd : w.dirs (mqueue.dir d id) with
    | false => exact Or.inr ⟨rfl, by simp [mqueue.Get, h, hd, os.Stat],
        by simp [mqueue.Get, h, hd, os.Stat], by simp [mqueue.Get, h, hd, os.Stat]⟩
    | true =>
      cases hm : o.mount with
      | none => exact Or.inl ⟨rfl, rfl,
          by simp [mqueue.Get, h, hd, hm, os.Stat, syscall.Mount],
          by simp [mqueue.Get, h, hd, hm, os.Stat, syscall.Mount],
          by simp [mqueue.Get, h, hd, hm, os.Stat, syscall.Mount]⟩
      | some e => exact Or.inr ⟨rfl, by simp [mqueue.Get, h, hd, hm, os.Stat, syscall.Mount],
          by simp [mqueue.Get, h, hd, hm, os.Stat, syscall.Mount],
          by simp [mqueue.Get, h, hd, hm, os.Stat, syscall.Mount]⟩

/-- What `Put` does to the registry, the disk and the mount table. -/
theorem mqueue_Put_world (d : Driver) (w : World) (o : Outcome) (id : String) :
    (d.active id = none ∧ (mqueue.Put d w o id).2.1 = d ∧
      (mqueue.Put d w o id).2.2.dirs = w.dirs ∧
      (mqueue.Put d w o id).2.2.mounts = w.mounts) ∨
    (∃ m, d.active id = some m ∧
      (mqueue.Put d w o id).2.1 = d.store id ⟨Go.decr m.count, m.path, m.mounted⟩ ∧
      (mqueue.Put d w o id).2.2.dirs = w.dirs ∧
      (mqueue.Put d w o id).2.2.mounts = w.mounts) ∨
    (∃ m, d.active id = some m ∧ (mqueue.Put d w o id).2.1 = d.delete id ∧
      (mqueue.Put d w o id).2.2.dirs = w.dirs ∧
      (mqueue.Put d w o id).2.2.mounts = w.mounts) ∨
    (∃ m, d.active id = some m ∧ (mqueue.Put d w o id).2.1 = d.delete id ∧
      (mqueue.Put d w o id).2.2.dirs =
        (fun q => if path.inside m.path q then (w.covered m.path).headD (fun _ => false) q
          else w.dirs q) ∧
      (mqueue.Put d w o id).2.2.mounts = w.mounts.erase m.path) := by
  cases h : d.active id with
  | none => exact Or.inl ⟨rfl, by simp [mqueue.Put, h], by simp [mqueue.Put, h],
      by simp [mqueue.Put, h]⟩
  | some m =>
    right
    by_cases hc : 0 < Go.decr m.count
    · exact Or.inl ⟨m, rfl, by simp [mqueue.Put, h, hc], by simp [mqueue.Put, h, hc],
        by simp [mqueue.Put, h, hc]⟩
    · right
      cases hm : m.mounted with
      | false => exact Or.inl ⟨m, rfl, by simp [mqueue.Put, h, hc, hm],
          by simp [mqueue.Put, h, hc, hm], by simp [mqueue.Put, h, hc, hm]⟩
      | true =>
        cases ho : o.unmount with
        | some e => exact Or.inl ⟨m, rfl, by simp [mqueue.Put, h, hc, hm],
            by simp [mqueue.Put, h, hc, hm, ho, syscall.Unmount],
            by simp [mqueue.Put, h, hc, hm, ho, syscall.Unmount]⟩
        | none => exact Or.inr ⟨m, rfl, by simp [mqueue.Put, h, hc, hm],
            by simp [mqueue.Put, h, hc, hm, ho, syscall.Unmount],
            by simp [mqueue.Put, h, hc, hm, ho, syscall.Unmount]⟩

/-- What a call other than `Get` and `Put` does to the disk: `Create` only
adds directories, a `Remove` that returns no error takes away the directory and
what lies below it, any other call leaves the disk as it is. -/
theorem mqueue_step_dirs (s : Driver × World) (o : Outcome) (c : Call)
    (hget : ∀ id l, c ≠ Call.Get id l) (hput : ∀ id, c ≠ Call.Put id) :
    (∀ q, s.2.dirs q = true → (mqueue.step s o c).2.2.dirs q = true) ∨
    (∃ id, c = Call.Remove id ∧ (mqueue.Remove s.1 s.2 o id).1 = none ∧
      (mqueue.step s o c).2.2.dirs =
        (fun q => s.2.dirs q && !path.below (mqueue.dir s.1 id) q)) := by
  cases c with
  | Create id parent =>
    left
    intro q hq
    by_cases hp : parent = "" <;> cases hd : s.2.dirs (mqueue.dir s.1 id) <;>
      cases ho : o.mkdirAll <;>
      simp [mqueue.step, mqueue.Create, os.MkdirAll, hp, hd, ho, hq]
  | Remove id =>
    cases hd : s.2.dirs (mqueue.dir s.1 id) with
    | false =>
      left
      intro q hq
      simp [mqueue.step, mqueue.Remove, os.Stat, hd, hq]
    | true =>
      cases ho : o.removeAll with
      | some e =>
        left
        intro q hq
        simp [mqueue.step, mqueue.Remove, os.Stat, os.RemoveAll, hd, ho, hq]
      | none =>
        right
        exact ⟨id, rfl, by simp [mqueue.Remove, os.Stat, os.RemoveAll, hd, ho],
          by simp [mqueue.step, mqueue.Remove, os.Stat, os.RemoveAll, hd, ho]⟩
  | Get id l => exact absurd rfl (hget id l)
  | Put id => exact absurd rfl (hput id)
  | Exists id => exact Or.inl (fun q hq => by simpa [mqueue.step, mqueue.Exists, os.Stat] using hq)
  | Status => exact Or.inl (fun q hq => hq)
  | Cleanup => exact Or.inl (fun q hq => hq)

theorem mountsCover_store_existing {d : Driver} {w w2 : World} (id : String)
    (m : ActiveMount) (hid : d.active id ≠ none) (h : MountsCover d w)
    (hw : w2.mounts = w.mounts) : MountsCover (d.store id m) w2 := by
  obtain ⟨ks, extra, hnd, hmem, hperm⟩ := h
  refine ⟨ks, extra, hnd, ?_, ?_⟩
  · intro k
    rw [hmem k]
    by_cases hk : k = id
    · subst hk; simp [Driver.store, hid]
    · simp [Driver.store, hk]
  · rw [hw]; exact hperm

theorem mountsCover_store_new {d : Driver} {w w2 : World} (id : String)
    (m : ActiveMount) (hid : d.active id = none) (h : MountsCover d w)
    (hw : w2.mounts = mqueue.dir d id :: w.mounts) : MountsCover (d.store id m) w2 := by
  obtain ⟨ks, extra, hnd, hmem, hperm⟩ := h
  have hnot : id ∉ ks := by
    intro hin
    exact (hmem id).1 hin hid
  refine ⟨id :: ks, extra, List.nodup_cons.2 ⟨hnot, hnd⟩, ?_, ?_⟩
  · intro k
    by_cases hk : k = id
    · subst hk; simp [Driver.store]
    · simp [Driver.store, hk, hmem k]
  · rw [hw]
    exact List.Perm.cons _ hperm

theorem mountsCover_delete_unmounted {d : Driver} {w w2 : World} (id : String)
    (hid : d.active id ≠ none) (h : MountsCover d w)
    (hw : w2.mounts = w.mounts.erase (mqueue.dir d id)) : MountsCover (d.delete id) w2 := by
  obtain ⟨ks, extra, hnd, hmem, hperm⟩ := h
  have hin : id ∈ ks := (hmem id).2 hid
  refine ⟨ks.erase id, extra, hnd.erase id, ?_, ?_⟩
  · intro k
    rw [hnd.mem_erase_iff, hmem k]
    by_cases hk : k = id
    · subst hk; simp [Driver.delete]
    · simp [Driver.delete, hk]
  · rw [hw]
    have h1 : (ks.map (mqueue.dir d) ++ extra).Perm
        (mqueue.dir d id :: ((ks.erase id).map (mqueue.dir d) ++ extra)) :=
      ((List.perm_cons_erase hin).map (mqueue.dir d)).append_right extra
    have h2 := (hperm.trans h1).erase (mqueue.dir d id)
    simpa using h2

theorem mountsCover_delete_kept {d : Driver} {w w2 : World} (id : String)
    (hid : d.active id ≠ none) (h : MountsCover d w)
    (hw : w2.mounts = w.mounts) : MountsCover (d.delete id) w2 := by
  obtain ⟨ks, extra, hnd, hmem, hperm⟩ := h
  have hin : id ∈ ks := (hmem id).2 hid
  refine ⟨ks.erase id, mqueue.dir d id :: extra, hnd.erase id, ?_, ?_⟩
  · intro k
    rw [hnd.mem_erase_iff, hmem k]
    by_cases hk : k = id
    · subst hk; simp [Driver.delete]
    · simp [Driver.delete, hk]
  · rw [hw]
    have h1 : (ks.map (mqueue.dir d) ++ extra).Perm
        (mqueue.dir d id :: ((ks.erase id).map (mqueue.dir d) ++ extra)) :=
      ((List.perm_cons_erase hin).map (mqueue.dir d)).append_right extra
    exact (hperm.trans h1).trans List.perm_middle.symm

theorem mountsCover_same {d : Driver} {w w2 : World} (h : MountsCover d w)
    (hw : w2.mounts = w.mounts) : MountsCover d w2 := by
  obtain ⟨ks, extra, hnd, hmem, hperm⟩ := h
  exact ⟨ks, extra, hnd, hmem, by rw [hw]; exact hperm⟩

theorem mountsCover_mem {d : Driver} {w : World} (h : MountsCover d w) (id : String)
    (hid : d.active id ≠ none) : mqueue.dir d id ∈ w.mounts := by
  obtain ⟨ks, extra, _, hmem, hperm⟩ := h
  exact hperm.mem_iff.2
    (List.mem_append_left _ (List.mem_map.2 ⟨id, (hmem id).2 hid, rfl⟩))

theorem mqueue_step_mounts_cover (s : Driver × World) (o : Outcome) (c : Call)
    (hwf : WellFormed s.1) (h : MountsCover s.1 s.2) :
    MountsCover (mqueue.step s o c).2.1 (mqueue.step s o c).2.2 := by
  by_cases hget : ∃ id l, c = Call.Get id l
  · obtain ⟨id, l, rfl⟩ := hget
    simp only [mqueue.step]
    rcases mqueue_Get_world s.1 s.2 o id l with ⟨m0, h0, hd, _, hw⟩ | ⟨h0, _, hd, _, hw⟩ |
      ⟨_, hd, _, hw⟩
    · rw [hd]
      exact mountsCover_store_existing id _ (by simp [h0]) h hw
    · rw [hd]
      exact mountsCover_store_new id _ h0 h hw
    · rw [hd]
      exact mountsCover_same h hw
  by_cases hput : ∃ id, c = Call.Put id
  · obtain ⟨id, rfl⟩ := hput
    simp only [mqueue.step]
    rcases mqueue_Put_world s.1 s.2 o id with ⟨_, hd, _, hw⟩ | ⟨m0, h0, hd, _, hw⟩ |
      ⟨m0, h0, hd, _, hw⟩ | ⟨m0, h0, hd, _, hw⟩
    · rw [hd]
      exact mountsCover_same h hw
    · rw [hd]
      exact mountsCover_store_existing id _ (by simp [h0]) h hw
    · rw [hd]
      exact mountsCover_delete_kept id (by simp [h0]) h hw
    · rw [hd]
      exact mountsCover_delete_unmounted id (by simp [h0]) h (by rw [hw, (hwf id m0 h0).2])
  · rw [mqueue_step_driver s o c (fun id l hc => hget ⟨id, l, hc⟩) (fun id hc => hput ⟨id, hc⟩)]
    exact mountsCover_same h
      (mqueue_step_mounts s o c (fun id l hc => hget ⟨id, l, hc⟩) (fun id hc => hput ⟨id, hc⟩))

/-- Only `Get` adds a key to the registry. -/
theorem mqueue_step_keys (s : Driver × World) (o : Outcome) (c : Call) (A : String → Prop)
    (hA : ∀ id, s.1.active id ≠ none → A id) (hc : ∀ id l, c = Call.Get id l → A id) :
    ∀ id, (mqueue.step s o c).2.1.active id ≠ none → A id := by
  intro k hk
  by_cases hget : ∃ id l, c = Call.Get id l
  · obtain ⟨id, l, rfl⟩ := hget
    by_cases hkid : k = id
    · subst hkid; exact hc k l rfl
    · apply hA k
      simp only [mqueue.step] at hk
      rcases mqueue_Get_cases s.1 s.2 o id l with ⟨m0, _, _, hd⟩ | ⟨_, _, hd⟩ | ⟨_, _, hd⟩ <;>
        rw [hd] at hk <;> simpa [Driver.store, hkid] using hk
  by_cases hput : ∃ id, c = Call.Put id
  · obtain ⟨id, rfl⟩ := hput
    apply hA k
    simp only [mqueue.step] at hk
    by_cases hkid : k = id
    · subst hkid
      rcases mqueue_Put_cases s.1 s.2 o k with ⟨h0, hd⟩ | ⟨m0, h0, _, hd⟩ | ⟨m0, h0, _, hd⟩
      · rw [hd] at hk; exact hk
      · simp [h0]
      · simp [h0]
    · rcases mqueue_Put_cases s.1 s.2 o id with ⟨_, hd⟩ | ⟨m0, _, _, hd⟩ | ⟨m0, _, _, hd⟩ <;>
        rw [hd] at hk
      · exact hk
      · simpa [Driver.store, hkid] using hk
      · simpa [Driver.delete, hkid] using hk
  · rw [mqueue_step_driver s o c (fun id l hc => hget ⟨id, l, hc⟩)
      (fun id hc => hput ⟨id, hc⟩)] at hk
    exact hA k hk

/-- One call keeps the directories of the keys in use on the disk, when the
directories of the identifiers acquired are not inside one another and a
`Remove` that returns no error finds no mount point at or below its
directory. -/
theorem mqueue_step_dirs_present (s : Driver × World) (o : Outcome) (c : Call)
    (A : String → Prop) (hwf : WellFormed s.1) (hmc : MountsCover s.1 s.2)
    (hdp : DirsPresent s.1 s.2) (hA : ∀ id, s.1.active id ≠ none → A id)
    (hc : ∀ id l, c = Call.Get id l → A id)
    (hnest : ∀ a b, A a → A b → path.inside (mqueue.dir s.1 a) (mqueue.dir s.1 b) = false)
    (hbusy : ∀ id, c = Call.Remove id → (mqueue.Remove s.1 s.2 o id).1 = none →
      ∀ p ∈ s.2.mounts, path.below (mqueue.dir s.1 id) p = false) :
    DirsPresent (mqueue.step s o c).2.1 (mqueue.step s o c).2.2 := by
  intro k hk
  have hdir : mqueue.dir (mqueue.step s o c).2.1 k = mqueue.dir s.1 k :=
    mqueue_dir_of_home _ _ k (mqueue_step_home s o c)
  rw [hdir]
  by_cases hget : ∃ id l, c = Call.Get id l
  · obtain ⟨id, l, rfl⟩ := hget
    simp only [mqueue.step] at hk ⊢
    rcases mqueue_Get_world s.1 s.2 o id l with ⟨m0, h0, hd, hds, _⟩ | ⟨h0, hst, hd, hds, _⟩ |
      ⟨_, hd, hds, _⟩
    · rw [hds]
      apply hdp k
      by_cases hkid : k = id
      · subst hkid; simp [h0]
      · rw [hd] at hk; simpa [Driver.store, hkid] using hk
    · rw [hds]
      by_cases hkid : k = id
      · subst hkid
        simp [hst, path.inside_self]
      · have hka : s.1.active k ≠ none := by
          rw [hd] at hk; simpa [Driver.store, hkid] using hk
        simp [hdp k hka, hnest id k (hc id l rfl) (hA k hka)]
    · rw [hds]
      rw [hd] at hk
      exact hdp k hk
  by_cases hput : ∃ id, c = Call.Put id
  · obtain ⟨id, rfl⟩ := hput
    simp only [mqueue.step] at hk ⊢
    rcases mqueue_Put_world s.1 s.2 o id with ⟨_, hd, hds, _⟩ | ⟨m0, h0, hd, hds, _⟩ |
      ⟨m0, h0, hd, hds, _⟩ | ⟨m0, h0, hd, hds, _⟩
    · rw [hds]
      rw [hd] at hk
      exact hdp k hk
    · rw [hds]
      apply hdp k
      by_cases hkid : k = id
      · subst hkid; simp [h0]
      · rw [hd] at hk; simpa [Driver.store, hkid] using hk
    · rw [hds]
      apply hdp k
      by_cases hkid : k = id
      · subst hkid; simp [h0]
      · rw [hd] at hk; simpa [Driver.delete, hkid] using hk
    · rw [hds]
      have hkid : k ≠ id := by
        intro hkid
        subst hkid
        rw [hd] at hk
        simp [Driver.delete] at hk
      have hka : s.1.active k ≠ none := by
        rw [hd] at hk; simpa [Driver.delete, hkid] using hk
      have hin : path.inside m0.path (mqueue.dir s.1 k) = false := by
        rw [(hwf id m0 h0).2]
        exact hnest id k (hA id (by simp [h0])) (hA k hka)
      simp [hin, hdp k hka]
  · have hg : ∀ id l, c ≠ Call.Get id l := fun id l hc => hget ⟨id, l, hc⟩
    have hp : ∀ id, c ≠ Call.Put id := fun id hc => hput ⟨id, hc⟩
    rw [mqueue_step_driver s o c hg hp] at hk
    rcases mqueue_step_dirs s o c hg hp with hgrow | ⟨id, hcid, hnil, hds⟩
    · exact hgrow _ (hdp k hk)
    · rw [hds]
      have hmem := mountsCover_mem hmc k hk
      simp [hdp k hk, hbusy id hcid hnil _ hmem]

/-- Along a run the directories of the keys in use stay on the disk, when the
directories of the identifiers acquired are not inside one another and the
kernel refuses to remove mount points. -/
theorem mqueue_run_dirs_present (cs : List (Outcome × Call)) (s : Driver × World)
    (A : String → Prop) (hwf : WellFormed s.1) (hmc : MountsCover s.1 s.2)
    (hdp : DirsPresent s.1 s.2) (hA : ∀ id, s.1.active id ≠ none → A id)
    (hc : ∀ id ∈ Call.acquired cs, A id)
    (hnest : ∀ a b, A a → A b → path.inside (mqueue.dir s.1 a) (mqueue.dir s.1 b) = false)
    (hbusy : mqueue.busyRefused s cs = true) :
    DirsPresent (mqueue.run s cs).2.1 (mqueue.run s cs).2.2 := by
  induction cs generalizing s with
  | nil => exact hdp
  | cons oc rest ih =>
    obtain ⟨o, c⟩ := oc
    simp only [mqueue.busyRefused, Bool.and_eq_true] at hbusy
    have hcs : ∀ id l, c = Call.Get id l → A id := by
      intro id l hcl
      subst hcl
      exact hc id (by simp [Call.acquired])
    have hrest : ∀ id ∈ Call.acquired rest, A id := by
      intro id hid
      apply hc id
      cases c <;> simp [Call.acquired, hid]
    have hb : ∀ id, c = Call.Remove id → (mqueue.Remove s.1 s.2 o id).1 = none →
        ∀ p ∈ s.2.mounts, path.below (mqueue.dir s.1 id) p = false := by
      intro id hcid hnil p hp
      subst hcid
      have h1 := hbusy.1
      simp only [hnil, Option.isSome_none, Bool.false_or, List.all_eq_true] at h1
      simpa using h1 p hp
    simp only [mqueue.run]
    refine ih _ (mqueue_step_well_formed s o c hwf) (mqueue_step_mounts_cover s o c hwf hmc)
      (mqueue_step_dirs_present s o c A hwf hmc hdp hA hcs hnest hb)
      (mqueue_step_keys s o c A hA hcs) hrest ?_ hbusy.2
    intro a b ha hb2
    rw [mqueue_dir_of_home _ s.1 a (mqueue_step_home s o c),
      mqueue_dir_of_home _ s.1 b (mqueue_step_home s o c)]
    exact hnest a b ha hb2

/-- C12 fails after `Create("L1", "")`, `Get("L1", _)`, `Get("..", _)` in the
`mqueue` driver, every call answered with success: the second `Get` mounts on
`/state`, which covers the directory of `L1`; the record of `L1` is still
there, `Exists("L1")` is false, and a further `Get("L1", _)` succeeds. -/
theorem Get_succeeds_on_covered_directory :
    (mqueue.run (mqueue.Init "/state" [], exBare) exCovered).1 =
      [Result.error none, Result.path "/state/dir/L1" none, Result.path "/state" none] ∧
    (mqueue.run (mqueue.Init "/state" [], exBare) exCovered).2.2.mounts =
      ["/state", "/state/dir/L1"] ∧
    (mqueue.Exists (mqueue.run (mqueue.Init "/state" [], exBare) exCovered).2.1
      (mqueue.run (mqueue.Init "/state" [], exBare) exCovered).2.2 "L1").1 = false ∧
    (mqueue.Get (mqueue.run (mqueue.Init "/state" [], exBare) exCovered).2.1
      (mqueue.run (mqueue.Init "/state" [], exBare) exCovered).2.2 Outcome.ok "L1"
        "").1 = ("/state/dir/L1", none) := by
  refine ⟨?_, ?_, ?_, ?_⟩ <;> decide

/-- C12 as amended: in the `mqueue` driver, in every state reached from the
freshly initialised driver, on any disk and with any mount table, by a sequence
of `Create`, `Remove`, `Get`, `Put`, `Exists`, `Status` and `Cleanup` calls
with any answers of the environment, in which the directories of the
identifiers passed to `Get` do not lie inside one another and every `Remove`
that returns no error is called when no mount point lies at or below its
directory (the kernel refuses to remove a mount point): whenever a call
`Get(id, _)` returns no error, whether it finds a record or not, the directory
of `id` is on the disk and `Exists(id)` is true at that moment. -/
theorem Get_has_directory (home : String) (options : List String) (w : World)
    (cs : List (Outcome × Call)) (o : Outcome) (id mountLabel : String)
    (hnest : ∀ a ∈ Call.acquired cs, ∀ b ∈ Call.acquired cs,
      path.inside (mqueue.dir (mqueue.Init home options) a)
        (mqueue.dir (mqueue.Init home options) b) = false)
    (hbusy : mqueue.busyRefused (mqueue.Init home options, w) cs = true)
    (hok : (mqueue.Get (mqueue.run (mqueue.Init home options, w) cs).2.1
      (mqueue.run (mqueue.Init home options, w) cs).2.2 o id mountLabel).1.2 = none) :
    (mqueue.run (mqueue.Init home options, w) cs).2.2.dirs
        (mqueue.dir (mqueue.run (mqueue.Init home options, w) cs).2.1 id) = true ∧
    (mqueue.Exists (mqueue.run (mqueue.Init home options, w) cs).2.1
      (mqueue.run (mqueue.Init home options, w) cs).2.2 id).1 = true := by
  have hwf0 : WellFormed (mqueue.Init home options, w).1 := by
    intro k m hm
    simp [mqueue.Init] at hm
  have hmc0 : MountsCover (mqueue.Init home options, w).1 (mqueue.Init home options, w).2 :=
    ⟨[], w.mounts, List.nodup_nil, by intro k; simp [mqueue.Init], by simp⟩
  have hdp0 : DirsPresent (mqueue.Init home options, w).1 (mqueue.Init home options, w).2 := by
    intro k hk
    simp [mqueue.Init] at hk
  have hdp := mqueue_run_dirs_present cs (mqueue.Init home options, w)
    (fun a => a ∈ Call.acquired cs) hwf0 hmc0 hdp0
    (by intro k hk; simp [mqueue.Init] at hk) (fun a ha => ha)
    (fun a b ha hb => hnest a ha b hb) hbusy
  have hdir : (mqueue.run (mqueue.Init home options, w) cs).2.2.dirs
      (mqueue.dir (mqueue.run (mqueue.Init home options, w) cs).2.1 id) = true := by
    cases hrec : (mqueue.run (mqueue.Init home options, w) cs).2.1.active id with
    | some m => exact hdp id (by simp [hrec])
    | none =>
      cases hd : (mqueue.run (mqueue.Init home options, w) cs).2.2.dirs
          (mqueue.dir (mqueue.run (mqueue.Init home options, w) cs).2.1 id) with
      | true => rfl
      | false => simp [mqueue.Get, hrec, hd, os.Stat] at hok
  exact ⟨hdir, by simp [mqueue.Exists, os.Stat, hdir]⟩

/-- Witness of the amended C12: after `Create`, `Get` and a refused `Remove`
of `L1`, a further `Get("L1", _)` succeeds and `Exists("L1")` is true. -/
theorem Get_has_directory_witness :
    (∀ a ∈ Call.acquired exRefused, ∀ b ∈ Call.acquired exRefused,
      path.inside (mqueue.dir (mqueue.Init "/state" []) a)
        (mqueue.dir (mqueue.Init "/state" []) b) = false) ∧
    mqueue.busyRefused (mqueue.Init "/state" [], exBare) exRefused = true ∧
    (mqueue.run (mqueue.Init "/state" [], exBare) exRefused).1 =
      [Result.error none, Result.path "/state/dir/L1" none,
       Result.error (some "device or resource busy")] ∧
    (mqueue.Get (mqueue.run (mqueue.Init "/state" [], exBare) exRefused).2.1
      (mqueue.run (mqueue.Init "/state" [], exBare) exRefused).2.2 Outcome.ok "L1"
        "").1 = ("/state/dir/L1", none) ∧
    (mqueue.Exists (mqueue.run (mqueue.Init "/state" [], exBare) exRefused).2.1
      (mqueue.run (mqueue.Init "/state" [], exBare) exRefused).2.2 "L1").1 = true :=
  ⟨by decide, by decide, by decide, by decide,
   (Get_has_directory "/state" [] exBare exRefused Outcome.ok "L1" "" (by decide) (by decide)
      (by decide)).2⟩

/-! ## The two drivers and the parameterised driver -/

theorem shm_step_eq_spec (s : Driver × World) (o : Outcome) (c : Call) :
    shm.step s o c = Spec.step Spec.shmSpec s o c := by
  have hmsg : "error creating " ++ Spec.shmSpec.fsType ++ " mount to " =
      "error creating tmpfs mount to " := by decide
  cases c with
  | Create id parent =>
    simp only [shm.step, Spec.step, shm.Create, Spec.create, shm.dir, Spec.resolve,
      os.MkdirAll]
    by_cases hp : parent = ""
    · cases s.2.dirs (path.Join [s.1.home, "dir", path.Base id]) <;> cases o.mkdirAll <;>
        simp [hp]
    · have hname : Spec.shmSpec.name ++ " driver doesn't support parent" =
          "shm driver doesn't support parent" := by decide
      simp [hp, hname]
  | Remove id =>
    simp only [shm.step, Spec.step, shm.Remove, Spec.remove, shm.dir, Spec.resolve, os.Stat]
    cases s.2.dirs (path.Join [s.1.home, "dir", path.Base id]) <;> simp
  | Get id l =>
    simp only [shm.step, Spec.step, shm.Get, Spec.Acquire, shm.dir, Spec.resolve, os.Stat,
      syscall.Mount]
    cases s.1.active id with
    | some m => rfl
    | none =>
      cases s.2.dirs (path.Join [s.1.home, "dir", path.Base id]) with
      | false => rfl
      | true =>
        cases o.mount with
        | none => rfl
        | some e => simp only [hmsg]; rfl
  | Put id =>
    simp only [shm.step, Spec.step, shm.Put, Spec.Release]
  | Exists id =>
    simp only [shm.step, Spec.step, shm.Exists, Spec.existsDir, shm.dir, Spec.resolve, os.Stat]
    cases s.2.dirs (path.Join [s.1.home, "dir", path.Base id]) <;> rfl
  | Status => rfl
  | Cleanup => rfl

theorem shm_run_eq_spec (cs : List (Outcome × Call)) (s : Driver × World) :
    shm.run s cs = Spec.run Spec.shmSpec s cs := by
  induction cs generalizing s with
  | nil => rfl
  | cons oc rest ih => simp only [shm.run, Spec.run, shm_step_eq_spec, ih]

theorem mqueue_step_eq_spec (s : Driver × World) (o : Outcome) (c : Call) :
    mqueue.step s o c = Spec.step Spec.mqueueSpec s o c := by
  have hmsg : "error creating " ++ Spec.mqueueSpec.fsType ++ " mount to " =
      "error creating mqueue mount to " := by decide
  cases c with
  | Create id parent =>
    simp only [mqueue.step, Spec.step, mqueue.Create, Spec.create, mqueue.dir, Spec.resolve,
      os.MkdirAll]
    by_cases hp : parent = ""
    · cases s.2.dirs (path.Join [s.1.home, "dir", path.Base id]) <;> cases o.mkdirAll <;>
        simp [hp]
    · have hname : Spec.mqueueSpec.name ++ " driver doesn't support parent" =
          "mqueue driver doesn't support parent" := by decide
      simp [hp, hname]
  | Remove id =>
    simp only [mqueue.step, Spec.step, mqueue.Remove, Spec.remove, mqueue.dir, Spec.resolve, os.Stat]
    cases s.2.dirs (path.Join [s.1.home, "dir", path.Base id]) <;> simp
  | Get id l =>
    simp only [mqueue.step, Spec.step, mqueue.Get, Spec.Acquire, mqueue.dir, Spec.resolve, os.Stat,
      syscall.Mount]
    cases s.1.active id with
    | some m => rfl
    | none =>
      cases s.2.dirs (path.Join [s.1.home, "dir", path.Base id]) with
      | false => rfl
      | true =>
        cases o.mount with
        | none => rfl
        | some e => simp only [hmsg]; rfl
  | Put id =>
    simp only [mqueue.step, Spec.step, mqueue.Put, Spec.Release]
  | Exists id =>
    simp only [mqueue.step, Spec.step, mqueue.Exists, Spec.existsDir, mqueue.dir, Spec.resolve, os.Stat]
    cases s.2.dirs (path.Join [s.1.home, "dir", path.Base id]) <;> rfl
  | Status => rfl
  | Cleanup => rfl

theorem mqueue_run_eq_spec (cs : List (Outcome × Call)) (s : Driver × World) :
    mqueue.run s cs = Spec.run Spec.mqueueSpec s cs := by
  induction cs generalizing s with
  | nil => rfl
  | cons oc rest ih => simp only [mqueue.run, Spec.run, mqueue_step_eq_spec, ih]

/-- Two table rows with the same flags take related states to related states
and return results that agree up to the text of the error. -/
theorem spec_step_sim (t1 t2 : Spec.MountSpec) (hf : t1.flags = t2.flags)
    (s1 s2 : Driver × World) (o : Outcome) (c : Call) (hd : s1.1 = s2.1)
    (hdirs : s1.2.dirs = s2.2.dirs) (hm : s1.2.mounts = s2.2.mounts)
    (hcov : s1.2.covered = s2.2.covered)
    (hc : s1.2.calls.map Syscall.erase = s2.2.calls.map Syscall.erase) :
    (Spec.step t1 s1 o c).2.1 = (Spec.step t2 s2 o c).2.1 ∧
    (Spec.step t1 s1 o c).2.2.dirs = (Spec.step t2 s2 o c).2.2.dirs ∧
    (Spec.step t1 s1 o c).2.2.mounts = (Spec.step t2 s2 o c).2.2.mounts ∧
    (Spec.step t1 s1 o c).2.2.covered = (Spec.step t2 s2 o c).2.2.covered ∧
    (Spec.step t1 s1 o c).2.2.calls.map Syscall.erase =
      (Spec.step t2 s2 o c).2.2.calls.map Syscall.erase ∧
    (Spec.step t1 s1 o c).1.erase = (Spec.step t2 s2 o c).1.erase := by
  obtain ⟨d1, ⟨dirs1, mounts1, calls1, cov1⟩⟩ := s1
  obtain ⟨d2, ⟨dirs2, mounts2, calls2, cov2⟩⟩ := s2
  simp only at hd hdirs hm hc hcov
  subst hd hdirs hm hcov
  cases c with
  | Create id parent =>
    by_cases hp : parent = ""
    · cases hdir : dirs1 (Spec.resolve d1 id) <;> cases ho : o.mkdirAll <;>
        simp [Spec.step, Spec.create, os.MkdirAll, hp, hdir, ho, hc, Syscall.erase,
          Result.erase]
    · simp [Spec.step, Spec.create, hp, hc, Result.erase]
  | Remove id =>
    cases hdir : dirs1 (Spec.resolve d1 id) <;> cases ho : o.removeAll <;>
      simp [Spec.step, Spec.remove, os.Stat, os.RemoveAll, hdir, ho, hc, Syscall.erase,
        Result.erase]
  | Get id l =>
    cases hrec : d1.active id with
    | some m => simp [Spec.step, Spec.Acquire, hrec, hc, Result.erase]
    | none =>
      cases hdir : dirs1 (Spec.resolve d1 id) <;> cases ho : o.mount <;>
        simp [Spec.step, Spec.Acquire, os.Stat, syscall.Mount, hrec, hdir, ho, hc, hf,
          Syscall.erase, Result.erase]
  | Put id =>
    cases hrec : d1.active id with
    | none => simp [Spec.step, Spec.Release, hrec, hc, Result.erase]
    | some m =>
      by_cases hcount : 0 < Go.decr m.count
      · simp [Spec.step, Spec.Release, hrec, hcount, hc, Result.erase]
      · cases hmo : m.mounted <;> cases ho : o.unmount <;>
          simp [Spec.step, Spec.Release, syscall.Unmount, hrec, hcount, hmo, ho, hc,
            Syscall.erase, Result.erase]
  | Exists id =>
    cases hdir : dirs1 (Spec.resolve d1 id) <;>
      simp [Spec.step, Spec.existsDir, os.Stat, hdir, hc, Syscall.erase, Result.erase]
  | Status => simp [Spec.step, hc, Result.erase]
  | Cleanup => simp [Spec.step, hc, Result.erase]

theorem spec_run_sim (t1 t2 : Spec.MountSpec) (hf : t1.flags = t2.flags)
    (cs : List (Outcome × Call)) (s1 s2 : Driver × World) (hd : s1.1 = s2.1)
    (hdirs : s1.2.dirs = s2.2.dirs) (hm : s1.2.mounts = s2.2.mounts)
    (hcov : s1.2.covered = s2.2.covered)
    (hc : s1.2.calls.map Syscall.erase = s2.2.calls.map Syscall.erase) :
    (Spec.run t1 s1 cs).2.1 = (Spec.run t2 s2 cs).2.1 ∧
    (Spec.run t1 s1 cs).2.2.dirs = (Spec.run t2 s2 cs).2.2.dirs ∧
    (Spec.run t1 s1 cs).2.2.mounts = (Spec.run t2 s2 cs).2.2.mounts ∧
    (Spec.run t1 s1 cs).2.2.covered = (Spec.run t2 s2 cs).2.2.covered ∧
    (Spec.run t1 s1 cs).2.2.calls.map Syscall.erase =
      (Spec.run t2 s2 cs).2.2.calls.map Syscall.erase ∧
    (Spec.run t1 s1 cs).1.map Result.erase = (Spec.run t2 s2 cs).1.map Result.erase := by
  induction cs generalizing s1 s2 with
  | nil => exact ⟨hd, hdirs, hm, hcov, hc, rfl⟩
  | cons oc rest ih =>
    obtain ⟨h1, h2, h3, h3c, h4, h5⟩ :=
      spec_step_sim t1 t2 hf s1 s2 oc.1 oc.2 hd hdirs hm hcov hc
    obtain ⟨g1, g2, g3, g3c, g4, g5⟩ := ih _ _ h1 h2 h3 h3c h4
    simp only [Spec.run, List.map_cons]
    exact ⟨g1, g2, g3, g3c, g4, by rw [h5, g5]⟩

/-- C17: from any initial state and for any sequence of `Create`, `Remove`,
`Exists`, `Get`, `Put`, `Status` and `Cleanup` calls with the same answers of
the environment, each driver runs exactly as the one parameterised driver of
the specification instantiated with its table row (name, filesystem type,
source, flags, options); hence the `shm` and the `mqueue` runs end in the same
driver, with the same registry, the same disk and the same mount table, issue
the same system calls up to the source, type and options of the mounts (the
targets and flags of the mounts and the unmounts agree), and return the same
results up to the text of the errors (the same successes and failures, the
same paths); `String` returns the name of the row, `shm` or `mqueue`. -/
theorem drivers_same_machine (s : Driver × World) (cs : List (Outcome × Call)) :
    shm.run s cs = Spec.run Spec.shmSpec s cs ∧
    mqueue.run s cs = Spec.run Spec.mqueueSpec s cs ∧
    (shm.run s cs).2.1 = (mqueue.run s cs).2.1 ∧
    (shm.run s cs).2.2.dirs = (mqueue.run s cs).2.2.dirs ∧
    (shm.run s cs).2.2.mounts = (mqueue.run s cs).2.2.mounts ∧
    (shm.run s cs).2.2.calls.map Syscall.erase =
      (mqueue.run s cs).2.2.calls.map Syscall.erase ∧
    (shm.run s cs).1.map Result.erase = (mqueue.run s cs).1.map Result.erase ∧
    shm.Driver.String s.1 = Spec.shmSpec.name ∧
    mqueue.Driver.String s.1 = Spec.mqueueSpec.name := by
  have hs := shm_run_eq_spec cs s
  have hq := mqueue_run_eq_spec cs s
  have hsim := spec_run_sim Spec.shmSpec Spec.mqueueSpec rfl cs s s rfl rfl rfl rfl rfl
  rw [hs, hq]
  exact ⟨rfl, rfl, hsim.1, hsim.2.1, hsim.2.2.1, hsim.2.2.2.2.1, hsim.2.2.2.2.2, rfl, rfl⟩

end Graphdriver
